import Mathlib

/-!
Verification of the news-scraper normalization core (src/main.py).

Strings are modelled as `List Char`.  Character classes follow Python's `re`
module restricted to the character repertoire the program actually handles:
`\d` is modelled as the ASCII digits and `\s` as the ASCII whitespace
characters (Python additionally accepts other Unicode digits/spaces, which
never occur in the scraped labels this program processes).

Python `datetime` values are modelled with minute precision
(year/month/day/hour/minute).  `format_datetime` drops seconds and
microseconds and every comparison/arithmetic step performed by the program is
insensitive to the sub-minute part of the reference time (`dt > base_time`
with `dt` built from a parsed `H:MM` label has zero seconds, so the
comparison agrees with the minute-truncated one), hence the minute model is
faithful.  Python `datetime` is bounded (years 1..9999); arithmetic that
leaves this range raises `OverflowError`, which the program's bare `except`
turns into the sentinel.  The model mirrors this with an explicit range check
(`shiftMin` returning `none`).  `strftime "%Y"` is modelled as a zero-padded
four-digit year (the year is always ≤ 9999 here).
-/

/-- Strings of the embedded program: lists of characters. -/
abbrev Str := List Char

/-- ASCII decimal digit, the model of `\d`. -/
def isDigitCh (c : Char) : Bool := 48 ≤ c.toNat && c.toNat ≤ 57

/-- ASCII whitespace, the model of `\s` (space, tab, LF, VT, FF, CR). -/
def isSpCh (c : Char) : Bool := c.toNat = 32 || (9 ≤ c.toNat && c.toNat ≤ 13)

/-- ASCII lower-casing, the model of `str.lower()` (non-ASCII letters are
unaffected in the program's inputs). -/
def toLowerCh (c : Char) : Char :=
  if 65 ≤ c.toNat && c.toNat ≤ 90 then Char.ofNat (c.toNat + 32) else c

/-- ASCII upper-casing (used by `str.capitalize()`). -/
def toUpperCh (c : Char) : Char :=
  if 97 ≤ c.toNat && c.toNat ≤ 122 then Char.ofNat (c.toNat - 32) else c

/-- Model of `str.lower()`. -/
def lowerL (l : Str) : Str := l.map toLowerCh

/-- Strip characters satisfying `p` from both ends (the general form behind
`str.strip()` and `str.strip(chars)`). -/
def stripBy (p : Char → Bool) (l : Str) : Str :=
  ((l.dropWhile p).reverse.dropWhile p).reverse

/-- Model of `str.strip()`. -/
def pyStrip (l : Str) : Str := stripBy isSpCh l

/-- Model of the Python substring test `p in l`. -/
def containsStr (l p : Str) : Bool := decide (p <:+: l)

/-- Model of `l.endswith (p)`. -/
def endsWithL (l p : Str) : Bool := decide (p <:+ l)

/-- Model of `l.startswith (p)`. -/
def startsWithL (l p : Str) : Bool := decide (p <+: l)

/-- Numeric value of a list of ASCII digit characters (`int()` on the digits
captured by a regex group). -/
def ofDec (l : Str) : Nat := l.foldl (fun a c => a * 10 + (c.toNat - 48)) 0

/-- First digit group of a label: the maximal digit run starting at the first
digit, the model of `re.search (r"(\d+)", s)`. -/
def firstDigitRun (l : Str) : Option Str :=
  match (l.dropWhile (fun c => !isDigitCh c)).takeWhile isDigitCh with
  | [] => none
  | ds => some ds

/-- The sentinel 取得不可 ("could not be determined"). -/
def sentinelL : Str := ['取', '得', '不', '可']

/-! ## The datetime model -/

/-- Minute-precision model of a Python `datetime`. -/
structure DateTime where
  year : Nat
  month : Nat
  day : Nat
  hour : Nat
  minute : Nat
deriving DecidableEq, Repr

/-- Proleptic-Gregorian leap year, as `calendar.isleap` / `datetime`. -/
def isLeap (y : Nat) : Bool := y % 4 = 0 && (y % 100 ≠ 0 || y % 400 = 0)

/-- Day count of a month (1..12). -/
def daysInMonth (y m : Nat) : Nat :=
  if m = 2 then (if isLeap y then 29 else 28)
  else if m = 4 || m = 6 || m = 9 || m = 11 then 30
  else 31

/-- Days in the months before month `m` of a non-leap year. -/
def monthPrefixDays : List Nat := [0, 31, 59, 90, 120, 151, 181, 212, 243, 273, 304, 334]

/-- Days from 0001-01-01 (day 0) to the first day of year `y`. -/
def daysBeforeYear (y : Nat) : Nat :=
  let p := y - 1
  p * 365 + p / 4 - p / 100 + p / 400

/-- Rata-die day number of a calendar date, with 0001-01-01 as day 0. -/
def toRD (y m d : Nat) : Nat :=
  daysBeforeYear y + monthPrefixDays.getD (m - 1) 0 +
    (if 2 < m && isLeap y then 1 else 0) + (d - 1)

/-- Civil date of a rata-die day number (inverse of `toRD` on the
representable range), via the standard era/year-of-era decomposition. -/
def fromRD (rd : Nat) : Nat × Nat × Nat :=
  let z := rd + 306
  let era := z / 146097
  let doe := z % 146097
  let yoe := (doe - doe / 1460 + doe / 36524 - doe / 146096) / 365
  let y := yoe + era * 400
  let doy := doe - (365 * yoe + yoe / 4 - yoe / 100)
  let mp := (5 * doy + 2) / 153
  let d := doy - (153 * mp + 2) / 5 + 1
  let m := if mp < 10 then mp + 3 else mp - 9
  (if m ≤ 2 then y + 1 else y, m, d)

/-- Absolute minute count of a datetime (minutes since 0001-01-01 00:00). -/
def toAbsMin (dt : DateTime) : Int :=
  (toRD dt.year dt.month dt.day : Int) * 1440 + dt.hour * 60 + dt.minute

/-- Datetime of an absolute minute count. -/
def fromAbsMin (t : Nat) : DateTime :=
  match fromRD (t / 1440) with
  | (y, m, d) => ⟨y, m, d, t % 1440 / 60, t % 60⟩

/-- Largest representable absolute minute (9999-12-31 23:59, `datetime.max`
truncated to minutes). -/
def maxAbsMin : Nat := toRD 9999 12 31 * 1440 + 1439

/-- Shift a datetime by `δ` minutes; `none` models the `OverflowError` Python
raises when `datetime ± timedelta` leaves `datetime.min .. datetime.max`. -/
def shiftMin (dt : DateTime) (δ : Int) : Option DateTime :=
  let t := toAbsMin dt + δ
  if 0 ≤ t && t ≤ (maxAbsMin : Int) then some (fromAbsMin t.toNat) else none

/-- The decimal digit character of `n % 10`. -/
def digitOf : Nat → Char
  | 0 => '0' | 1 => '1' | 2 => '2' | 3 => '3' | 4 => '4'
  | 5 => '5' | 6 => '6' | 7 => '7' | 8 => '8' | _ => '9'

/-- Digit character `k` of `n` written in decimal, counting from the right. -/
def digitAt (n k : Nat) : Char := digitOf (n / 10 ^ k % 10)

/-- Model of `format_datetime` (src/main.py line 29): `strftime` with format
`%Y/%m/%d %H:%M`; `%Y` zero-padded to four digits (years here are ≤ 9999). -/
def format_datetime (dt : DateTime) : Str :=
  [digitAt dt.year 3, digitAt dt.year 2, digitAt dt.year 1, digitAt dt.year 0, '/',
   digitAt dt.month 1, digitAt dt.month 0, '/', digitAt dt.day 1, digitAt dt.day 0, ' ',
   digitAt dt.hour 1, digitAt dt.hour 0, ':', digitAt dt.minute 1, digitAt dt.minute 0]

/-- Syntactic check that a string has the exact shape `YYYY/MM/DD HH:MM`. -/
def validTimestampFormat : Str → Bool
  | [y1, y2, y3, y4, s1, m1, m2, s2, d1, d2, s3, h1, h2, s4, n1, n2] =>
    isDigitCh y1 && isDigitCh y2 && isDigitCh y3 && isDigitCh y4 &&
    s1 = '/' && isDigitCh m1 && isDigitCh m2 && s2 = '/' &&
    isDigitCh d1 && isDigitCh d2 && s3 = ' ' &&
    isDigitCh h1 && isDigitCh h2 && s4 = ':' && isDigitCh n1 && isDigitCh n2
  | _ => false

/-- A valid (in-range) datetime, as Python's `datetime` constructor enforces. -/
def ValidDT (dt : DateTime) : Prop :=
  1 ≤ dt.year ∧ dt.year ≤ 9999 ∧ 1 ≤ dt.month ∧ dt.month ≤ 12 ∧
  1 ≤ dt.day ∧ dt.day ≤ daysInMonth dt.year dt.month ∧ dt.hour ≤ 23 ∧ dt.minute ≤ 59

instance (dt : DateTime) : Decidable (ValidDT dt) := by
  unfold ValidDT; infer_instance

/-! ## Matchers for the time regexes

`TIME_RE = (\d+)\s*(分|時間|日)\s*前` and
`TIME_ONLY_RE = ^\s*(\d+)\s*(分|時間|日)\s*(前|)?\s*$` (src/main.py lines 32-33).
In these patterns every greedy repetition is followed by a token from a
disjoint character class, so the deterministic maximal-munch matchers below
are exactly Python's backtracking semantics. -/

/-- Match the unit alternation `(分|時間|日)` at the head, returning the rest. -/
def matchUnit : Str → Option Str
  | '分' :: r => some r
  | '時' :: '間' :: r => some r
  | '日' :: r => some r
  | _ => none

/-- Match `TIME_RE` anchored at the head of `l`, returning the rest. -/
def matchTimeReAt (l : Str) : Option Str :=
  let ds := l.takeWhile isDigitCh
  if ds.isEmpty then none
  else
    match matchUnit ((l.dropWhile isDigitCh).dropWhile isSpCh) with
    | none => none
    | some r =>
      match r.dropWhile isSpCh with
      | '前' :: rest => some rest
      | _ => none

/-- Model of `TIME_RE.search`: does `TIME_RE` match anywhere in `l`? -/
def timeReSearch : Str → Bool
  | [] => false
  | c :: cs => (matchTimeReAt (c :: cs)).isSome || timeReSearch cs

/-- Model of `TIME_ONLY_RE.match`: the whole string is `\s*` digits `\s*` unit
`\s*` optional `前` `\s*`. -/
def timeOnlyMatch (l : Str) : Bool :=
  let l1 := l.dropWhile isSpCh
  let ds := l1.takeWhile isDigitCh
  if ds.isEmpty then false
  else
    match matchUnit ((l1.dropWhile isDigitCh).dropWhile isSpCh) with
    | none => false
    | some r =>
      let r2 := r.dropWhile isSpCh
      match r2 with
      | '前' :: t => t.all isSpCh
      | _ => r2.all isSpCh

/-! ## `strptime` models

Python's `strptime` compiles each directive to a regex
(`%Y ↦ \d{4}`, and `%m/%d/%H/%M/%S ↦` a one-or-two-digit alternation) and then
constructs a `datetime`, raising `ValueError` when a value is out of range or
input remains.  For these formats every two-digit directive is followed by a
literal from a disjoint class or by the end of the input, so "take the whole
digit run, require its length in 1..2, then range-check the value" is
equivalent. -/

/-- Exactly four digit characters at the head. -/
def digits4 : Str → Option (Nat × Str)
  | a :: b :: c :: d :: r =>
    if isDigitCh a && isDigitCh b && isDigitCh c && isDigitCh d then
      some (ofDec [a, b, c, d], r)
    else none
  | _ => none

/-- A one-or-two-digit group: the full digit run must have length 1 or 2. -/
def digits12 (l : Str) : Option (Nat × Str) :=
  let run := l.takeWhile isDigitCh
  if run.length = 1 || run.length = 2 then some (ofDec run, l.dropWhile isDigitCh)
  else none

/-- A literal character in a `strptime` format. -/
def expectCh (c : Char) : Str → Option Str
  | x :: r => if x = c then some r else none
  | [] => none

/-- A literal whitespace in a `strptime` format matches `\s+`. -/
def expectWs1 (l : Str) : Option Str :=
  if (l.takeWhile isSpCh).isEmpty then none else some (l.dropWhile isSpCh)

/-- Model of `datetime.strptime (s, "%m月%d日")` (full match; the day is
validated against year 1900, the placeholder year strptime uses). -/
def strptimeMonthDay (l : Str) : Option (Nat × Nat) :=
  match digits12 l with
  | none => none
  | some (m, r1) =>
    match expectCh '月' r1 with
    | none => none
    | some r2 =>
      match digits12 r2 with
      | none => none
      | some (d, r3) =>
        match expectCh '日' r3 with
        | none => none
        | some r4 =>
          if r4.isEmpty ∧ 1 ≤ m ∧ m ≤ 12 ∧ 1 ≤ d ∧ d ≤ daysInMonth 1900 m then
            some (m, d)
          else none

/-- Model of `datetime.strptime (s, "%Y/%m/%d")` (full match). -/
def strptimeYMD (l : Str) : Option (Nat × Nat × Nat) :=
  match digits4 l with
  | none => none
  | some (y, r1) =>
    match expectCh '/' r1 with
    | none => none
    | some r2 =>
      match digits12 r2 with
      | none => none
      | some (m, r3) =>
        match expectCh '/' r3 with
        | none => none
        | some r4 =>
          match digits12 r4 with
          | none => none
          | some (d, r5) =>
            if r5.isEmpty ∧ 1 ≤ y ∧ 1 ≤ m ∧ m ≤ 12 ∧ 1 ≤ d ∧ d ≤ daysInMonth y m then
              some (y, m, d)
            else none

/-- Model of `datetime.strptime (s, "%H:%M")` (full match). -/
def strptimeHM (l : Str) : Option (Nat × Nat) :=
  match digits12 l with
  | none => none
  | some (h, r1) =>
    match expectCh ':' r1 with
    | none => none
    | some r2 =>
      match digits12 r2 with
      | none => none
      | some (mi, r3) =>
        if r3.isEmpty ∧ h ≤ 23 ∧ mi ≤ 59 then some (h, mi) else none

/-- Model of `datetime.strptime (s, "%Y/%m/%d %H:%M")` (full match; the
format's literal space matches one-or-more whitespace). -/
def strptimeYMDHM (l : Str) : Option DateTime :=
  match digits4 l with
  | none => none
  | some (y, r1) =>
    match expectCh '/' r1 with
    | none => none
    | some r2 =>
      match digits12 r2 with
      | none => none
      | some (m, r3) =>
        match expectCh '/' r3 with
        | none => none
        | some r4 =>
          match digits12 r4 with
          | none => none
          | some (d, r5) =>
            match expectWs1 r5 with
            | none => none
            | some r6 =>
              match digits12 r6 with
              | none => none
              | some (h, r7) =>
                match expectCh ':' r7 with
                | none => none
                | some r8 =>
                  match digits12 r8 with
                  | none => none
                  | some (mi, r9) =>
                    if r9.isEmpty ∧ 1 ≤ y ∧ 1 ≤ m ∧ m ≤ 12 ∧ 1 ≤ d ∧
                        d ≤ daysInMonth y m ∧ h ≤ 23 ∧ mi ≤ 59 then
                      some ⟨y, m, d, h, mi⟩
                    else none

/-- Model of `datetime.strptime (s, "%Y-%m-%dT%H:%M:%SZ")` (full match;
seconds are validated — `%S` accepts 0..61 — then dropped by the minute
model, which is sound because `format_datetime` never shows them). -/
def strptimeISO (l : Str) : Option DateTime :=
  match digits4 l with
  | none => none
  | some (y, r1) =>
    match expectCh '-' r1 with
    | none => none
    | some r2 =>
      match digits12 r2 with
      | none => none
      | some (m, r3) =>
        match expectCh '-' r3 with
        | none => none
        | some r4 =>
          match digits12 r4 with
          | none => none
          | some (d, r5) =>
            match expectCh 'T' r5 with
            | none => none
            | some r6 =>
              match digits12 r6 with
              | none => none
              | some (h, r7) =>
                match expectCh ':' r7 with
                | none => none
                | some r8 =>
                  match digits12 r8 with
                  | none => none
                  | some (mi, r9) =>
                    match expectCh ':' r9 with
                    | none => none
                    | some r10 =>
                      match digits12 r10 with
                      | none => none
                      | some (s, r11) =>
                        match expectCh 'Z' r11 with
                        | none => none
                        | some r12 =>
                          if r12.isEmpty ∧ 1 ≤ y ∧ 1 ≤ m ∧ m ≤ 12 ∧ 1 ≤ d ∧
                              d ≤ daysInMonth y m ∧ h ≤ 23 ∧ mi ≤ 59 ∧ s ≤ 61 then
                            some ⟨y, m, d, h, mi⟩
                          else none

/-- Model of `re.match (r'\d+月\d+日', s)` (prefix match). -/
def matchMonthDayPrefix (l : Str) : Bool :=
  !(l.takeWhile isDigitCh).isEmpty &&
    match l.dropWhile isDigitCh with
    | '月' :: r2 =>
      !(r2.takeWhile isDigitCh).isEmpty &&
        match r2.dropWhile isDigitCh with
        | '日' :: _ => true
        | _ => false
    | _ => false

/-- Model of `re.match (r'\d{4}/\d{1,2}/\d{1,2}', s)` (prefix match). -/
def matchYMDPrefix (l : Str) : Bool :=
  match digits4 l with
  | none => false
  | some (_, r1) =>
    match r1 with
    | '/' :: r2 =>
      match digits12 r2 with
      | none => false
      | some (_, r3) =>
        match r3 with
        | '/' :: r4 => !(r4.takeWhile isDigitCh).isEmpty
        | _ => false
    | _ => false

/-- Model of `re.match (r'\d{1,2}:\d{2}', s)` (prefix match). -/
def reMatchHM (l : Str) : Bool :=
  (let n := (l.takeWhile isDigitCh).length; n = 1 || n = 2) &&
    match l.dropWhile isDigitCh with
    | ':' :: a :: b :: _ => isDigitCh a && isDigitCh b
    | _ => false

/-- Format a parse result, or the sentinel when the step failed/overflowed. -/
def fmtOpt : Option DateTime → Str
  | some dt => format_datetime dt
  | none => sentinelL

def jMinMark : Str := ['分', '前']
def eMinMark : Str := ['m', 'i', 'n', 'u', 't', 'e']
def jHourMark : Str := ['時', '間', '前']
def eHourMark : Str := ['h', 'o', 'u', 'r']
def jDayMark : Str := ['日', '前']
def eDayMark : Str := ['d', 'a', 'y']

/-- Model of `parse_relative_time` (src/main.py lines 35-69).  The branch
chain is `if/elif`: once a substring/regex guard selects a branch, an inner
failure (no digits, `strptime` error, overflow) falls through to the final
sentinel, not to the next branch. -/
def parse_relative_time (pub_label : Str) (base_time : DateTime) : Str :=
  if pub_label.isEmpty then sentinelL
  else
    let l := lowerL (pyStrip pub_label)
    if containsStr l jMinMark || containsStr l eMinMark then
      fmtOpt ((firstDigitRun l).bind fun ds => shiftMin base_time (-(ofDec ds : Int)))
    else if containsStr l jHourMark || containsStr l eHourMark then
      fmtOpt ((firstDigitRun l).bind fun ds => shiftMin base_time (-(60 * ofDec ds : Int)))
    else if containsStr l jDayMark || containsStr l eDayMark then
      fmtOpt ((firstDigitRun l).bind fun ds => shiftMin base_time (-(1440 * ofDec ds : Int)))
    else if matchMonthDayPrefix l then
      fmtOpt ((strptimeMonthDay l).map fun md => ⟨base_time.year, md.1, md.2, 0, 0⟩)
    else if matchYMDPrefix l then
      fmtOpt ((strptimeYMD l).map fun ymd => ⟨ymd.1, ymd.2.1, ymd.2.2, 0, 0⟩)
    else if reMatchHM l then
      match strptimeHM l with
      | none => sentinelL
      | some hm =>
        let comb : DateTime := ⟨base_time.year, base_time.month, base_time.day, hm.1, hm.2⟩
        if toAbsMin base_time < toAbsMin comb then fmtOpt (shiftMin comb (-1440))
        else format_datetime comb
    else sentinelL

/-! ## The publisher text cleaner (src/main.py lines 139-159)

`re.sub (pat, "", s)` scans left to right, removes each leftmost
non-overlapping match and continues after it.  The fuel-based scanners below
implement exactly that; the fuel (the string length) is sufficient because
every successful match consumes at least one character. -/

/-- Word character for `\b`: ASCII alphanumerics, underscore, and the kana /
kanji block U+3040..U+9FFF (Python's Unicode `\w`) minus the katakana middle
dot U+30FB, which is punctuation. -/
def isWordCh (c : Char) : Bool :=
  (48 ≤ c.toNat && c.toNat ≤ 57) || (65 ≤ c.toNat && c.toNat ≤ 90) ||
  (97 ≤ c.toNat && c.toNat ≤ 122) || c = '_' ||
  (0x3040 ≤ c.toNat && c.toNat ≤ 0x9FFF && c.toNat ≠ 0x30FB)

/-- Match `on\s+MSN\b` (case-insensitive) at the head; the leading `\b` is
checked by the caller. -/
def matchOnMSN : Str → Option Str
  | c1 :: c2 :: r2 =>
    if (c1 = 'o' || c1 = 'O') && (c2 = 'n' || c2 = 'N') then
      if (r2.takeWhile isSpCh).isEmpty then none
      else
        match r2.dropWhile isSpCh with
        | a :: b :: c :: r4 =>
          if (a = 'm' || a = 'M') && (b = 's' || b = 'S') && (c = 'n' || c = 'N') then
            match r4 with
            | [] => some []
            | d :: _ => if isWordCh d then none else some r4
          else none
        | _ => none
    else none
  | _ => none

/-- Scanner for `re.sub (r"\bon\s+MSN\b", "", t, flags=re.IGNORECASE)`.
`prev` records whether the previous character was a word character (a match
can only start at a word boundary; the start of the string counts as a
boundary). -/
def subOnMSNF : Nat → Bool → Str → Str
  | 0, _, l => l
  | _ + 1, _, [] => []
  | n + 1, prev, c :: cs =>
    if prev then c :: subOnMSNF n (isWordCh c) cs
    else
      match matchOnMSN (c :: cs) with
      | some r => subOnMSNF n true r
      | none => c :: subOnMSNF n (isWordCh c) cs

def subOnMSN (l : Str) : Str := subOnMSNF l.length false l

/-- Generic model of `re.sub (pat, "", s)` for an unanchored pattern given by
an at-position matcher `f` returning the rest after a match. -/
def subAllF (f : Str → Option Str) : Nat → Str → Str
  | 0, l => l
  | _ + 1, [] => []
  | n + 1, c :: cs =>
    match f (c :: cs) with
    | some r => subAllF f n r
    | none => c :: subAllF f n cs

def subAll (f : Str → Option Str) (l : Str) : Str := subAllF f l.length l

/-- Match `MSN\s*による配信` at the head. -/
def matchMSNHaisin : Str → Option Str
  | 'M' :: 'S' :: 'N' :: r =>
    match r.dropWhile isSpCh with
    | 'に' :: 'よ' :: 'る' :: '配' :: '信' :: rest => some rest
    | _ => none
  | _ => none

/-- Match `(提供|配信)\s*[:：]?` at the head. -/
def matchTeikyou : Str → Option Str
  | c1 :: c2 :: r =>
    if (c1 = '提' && c2 = '供') || (c1 = '配' && c2 = '信') then
      match r.dropWhile isSpCh with
      | ':' :: rest => some rest
      | '：' :: rest => some rest
      | rest => some rest
    else none
  | _ => none

/-- `t.replace ("・", " ").replace ("•", " ").replace ("·", " ")`. -/
def dotSwap (c : Char) : Char :=
  if c = '・' || c = '•' || c = '·' then ' ' else c

/-- Removal of the end-anchored trailing time expression
`re.sub (r"\s*\d+\s*(分|時間|日)\s*(前|)?\s*$", "", t)`: the pattern matches a
whole suffix, and `timeOnlyMatch` is exactly "this suffix matches the
pattern", so the sub truncates at the leftmost such suffix. -/
def stripTT : Str → Str
  | [] => []
  | c :: cs => if timeOnlyMatch (c :: cs) then [] else c :: stripTT cs

/-- Does `\s*\(\s*\)\s*$` match this whole suffix? -/
def emptyParenAtEnd (l : Str) : Bool :=
  match l.dropWhile isSpCh with
  | '(' :: r =>
    match r.dropWhile isSpCh with
    | ')' :: t => t.all isSpCh
    | _ => false
  | _ => false

/-- `re.sub (r"\s*\(\s*\)\s*$", "", t)` (ASCII parentheses only, as in the
source pattern). -/
def stripEmptyParen : Str → Str
  | [] => []
  | c :: cs => if emptyParenAtEnd (c :: cs) then [] else c :: stripEmptyParen cs

/-- `re.sub (r"\s{2,}", " ", t)`: every maximal run of two or more whitespace
characters becomes a single ASCII space. -/
def collapseWsF : Nat → Str → Str
  | 0, l => l
  | _ + 1, [] => []
  | _ + 1, [c] => [c]
  | n + 1, c :: d :: rest =>
    if isSpCh c && isSpCh d then collapseWsF n (' ' :: rest)
    else c :: collapseWsF n (d :: rest)

def collapseWs (l : Str) : Str := collapseWsF l.length l

/-- The character set of `t.strip ("・|•|·|-–—:：")`. -/
def inSepStrip (c : Char) : Bool :=
  c = '・' || c = '|' || c = '•' || c = '·' || c = '-' || c = '–' || c = '—' ||
  c = ':' || c = '：'

/-- Model of `clean_source_text` (src/main.py lines 139-159). -/
def clean_source_text (raw : Str) : Str :=
  if raw.isEmpty then []
  else
    let t1 := pyStrip raw
    let t2 := subOnMSN t1
    let t3 := subAll matchMSNHaisin t2
    let t4 := subAll matchTeikyou t3
    let t5 := t4.map dotSwap
    let t6 := pyStrip (stripTT t5)
    let t7 := pyStrip (subAll matchTimeReAt t6)
    let t8 := pyStrip (stripEmptyParen t7)
    let t9 := pyStrip (collapseWs t8)
    let t10 := pyStrip (stripBy inSepStrip t9)
    if timeOnlyMatch t10 then [] else t10

/-- Model of `is_timeish` (src/main.py lines 161-169). -/
def is_timeish (text : Str) : Bool :=
  if text.isEmpty then false
  else if timeOnlyMatch (pyStrip text) then true
  else timeReSearch text

/-! ## Publisher inference from the URL (src/main.py lines 107-137) -/

def isAsciiLetter (c : Char) : Bool :=
  (65 ≤ c.toNat && c.toNat ≤ 90) || (97 ≤ c.toNat && c.toNat ≤ 122)

def isSchemeCh (c : Char) : Bool :=
  isAsciiLetter c || isDigitCh c || c = '+' || c = '-' || c = '.'

/-- Remove a leading `scheme:` as `urlsplit` does (a valid scheme is nonempty,
starts with a letter, consists of scheme characters, and is followed by a
colon). -/
def splitScheme (url : Str) : Str :=
  let pre := url.takeWhile (fun c => c ≠ ':')
  if decide (pre.length < url.length) && !pre.isEmpty && pre.all isSchemeCh &&
      (match pre with | c :: _ => isAsciiLetter c | [] => false) then
    url.drop (pre.length + 1)
  else url

/-- Model of `urlparse (url).netloc`: text between `//` and the next `/?#`;
`none` models the `ValueError` raised for unbalanced IPv6 brackets; a URL
without `//` has an empty netloc. -/
def netlocOf (url : Str) : Option Str :=
  match splitScheme url with
  | '/' :: '/' :: r2 =>
    let n := r2.takeWhile (fun c => c ≠ '/' && c ≠ '?' && c ≠ '#')
    if (n.contains '[' && !n.contains ']') || (n.contains ']' && !n.contains '[') then none
    else some n
  | _ => some []

def msnLabel : Str := ['M', 'S', 'N']
def yahooLabel : Str := ['Y', 'a', 'h', 'o', 'o']
def googleLabel : Str := ['G', 'o', 'o', 'g', 'l', 'e']
def msnDomain : Str := ['m', 's', 'n', '.', 'c', 'o', 'm']
def yahooDomain : Str := ['n', 'e', 'w', 's', '.', 'y', 'a', 'h', 'o', 'o', '.', 'c', 'o', '.', 'j', 'p']
def wwwDot : Str := ['w', 'w', 'w', '.']

/-- The curated `NAME_MAP` domain → display-name table. -/
def nameMap : List (Str × Str) :=
  [(['r','e','s','p','o','n','s','e','.','j','p'],
    ['レ','ス','ポ','ン','ス','（','R','e','s','p','o','n','s','e','.','j','p','）']),
   (['n','e','w','s','w','e','e','k','j','a','p','a','n','.','j','p'],
    ['ニ','ュ','ー','ズ','ウ','ィ','ー','ク','日','本','版']),
   (['b','l','o','o','m','b','e','r','g','.','c','o','.','j','p'],
    ['ブ','ル','ー','ム','バ','ー','グ']),
   (['m','o','t','o','r','-','f','a','n','.','j','p'],
    ['M','o','t','o','r','-','F','a','n']),
   (['y','o','u','n','g','-','m','a','c','h','i','n','e','.','c','o','m'],
    ['ヤ','ン','グ','マ','シ','ン']),
   (['a','s','-','w','e','b','.','j','p'],
    ['a','u','t','o','s','p','o','r','t',' ','w','e','b']),
   (['w','e','b','c','g','.','n','e','t'],
    ['W','e','b','C','G']),
   (['b','e','s','t','c','a','r','w','e','b','.','j','p'],
    ['ベ','ス','ト','カ','ー','W','e','b'])]

def lookupName (h : Str) : Option Str :=
  (nameMap.find? (fun p => p.1 == h)).map Prod.snd

/-- Model of `str.capitalize ()`: first character upper-cased, the rest
lower-cased. -/
def pyCapitalize : Str → Str
  | [] => []
  | c :: r => toUpperCh c :: r.map toLowerCh

/-- The `host` the function derives: lower-cased netloc with the port
stripped (`netloc.split (":")[0]`). -/
def urlHost (url : Str) : Str :=
  match netlocOf url with
  | none => []
  | some n => (lowerL n).takeWhile (fun c => c ≠ ':')

/-- Model of `publisher_from_url` (src/main.py lines 107-137). -/
def publisher_from_url (url : Str) : Str :=
  match netlocOf url with
  | none => []
  | some n0 =>
    let netloc := lowerL n0
    if netloc.isEmpty then []
    else if endsWithL netloc msnDomain then msnLabel
    else if containsStr netloc yahooDomain then yahooLabel
    else
      let host0 := netloc.takeWhile (fun c => c ≠ ':')
      let host := if startsWithL host0 wwwDot then host0.drop 4 else host0
      match lookupName host with
      | some name => name
      | none =>
        let parts := List.splitOn '.' host
        let base := if 2 ≤ parts.length then parts.getD (parts.length - 2) [] else host
        pyCapitalize ((base.map fun c => if c = '-' then ' ' else c).map
          fun c => if c = '_' then ' ' else c)

/-! ## The per-site record fragments the claims are about -/

/-- The canonical four-field record (タイトル/URL/投稿日/引用元). -/
structure Article where
  title : Str
  url : Str
  pub : Str
  source : Str
deriving DecidableEq, Repr

/-- Google item timestamp (src/main.py lines 208-209):
`strptime (attr, "%Y-%m-%dT%H:%M:%SZ") + 9h`, formatted; `none` is the
exception path, which skips the whole article. -/
def google_pub_date (iso : Str) : Option Str :=
  ((strptimeISO iso).bind fun dt => shiftMin dt 540).map format_datetime

/-- Match `\([月火水木金土日]\)` at the head. -/
def matchYahooWeekday : Str → Option Str
  | '(' :: w :: ')' :: rest =>
    if w = '月' || w = '火' || w = '水' || w = '木' || w = '金' || w = '土' || w = '日' then
      some rest
    else none
  | _ => none

/-- Yahoo item timestamp (src/main.py lines 240-247): strip the weekday
parenthetical, try `%Y/%m/%d %H:%M`, and on failure keep the cleaned label
as-is. -/
def yahoo_pub_date (date_str : Str) : Str :=
  if date_str.isEmpty then sentinelL
  else
    let ds := pyStrip (subAll matchYahooWeekday date_str)
    match strptimeYMDHM ds with
    | some dt => format_datetime dt
    | none => ds

/-- Model of `get_last_modified_datetime` (src/main.py lines 71-80), with the
network probe abstracted into its parsed result: the HTTP-date of a
`Last-Modified` header when present and parseable, shifted by +9h.  Any
failure (no header, network error, parse error, overflow) is the sentinel. -/
def get_last_modified_datetime (lastModified : Option DateTime) : Str :=
  match lastModified.bind fun dt => shiftMin dt 540 with
  | some dt => format_datetime dt
  | none => sentinelL

/-- MSN: the label-based stage of the timestamp (src/main.py lines 357-366):
ISO labels (containing `T` and `:` and ending in `Z`) are parsed and shifted
+9h, other labels go through `parse_relative_time`. -/
def msn_label_date (label : Str) (now : DateTime) : Str :=
  if label.isEmpty then sentinelL
  else if containsStr label ['T'] && containsStr label [':'] && endsWithL label ['Z'] then
    match (strptimeISO label).bind fun dt => shiftMin dt 540 with
    | some dt => format_datetime dt
    | none => sentinelL
  else parse_relative_time label now

/-- MSN item timestamp (src/main.py lines 357-368): the label-based stage,
with a sentinel result falling back to the Last-Modified probe. -/
def msn_pub_date (label : Str) (now : DateTime) (lastModified : Option DateTime) : Str :=
  let pd := msn_label_date label now
  if pd = sentinelL then get_last_modified_datetime lastModified else pd

/-- First present selector result (`select_one` hits tried in order; the
loop breaks on the first present element, whatever its text). -/
def firstSelectorHit : List (Option Str) → Str
  | [] => []
  | none :: rest => firstSelectorHit rest
  | some t :: _ => t

/-- Google publisher (src/main.py lines 197-206). -/
def google_source (hits : List (Option Str)) (final_url : Str) : Str :=
  let src := firstSelectorHit hits
  if src.isEmpty then
    let g := publisher_from_url final_url
    if g.isEmpty then googleLabel else g
  else src

/-- Match `\d{4}/\d{1,2}/\d{1,2} \d{2}:\d{2}` at the head. -/
def matchYmdHmSp : Str → Option Str
  | l =>
    match digits4 l with
    | none => none
    | some (_, r1) =>
      match r1 with
      | '/' :: r2 =>
        match digits12 r2 with
        | none => none
        | some (_, r3) =>
          match r3 with
          | '/' :: r4 =>
            match digits12 r4 with
            | none => none
            | some (_, r5) =>
              match r5 with
              | ' ' :: a :: b :: ':' :: c :: d :: rest =>
                if isDigitCh a && isDigitCh b && isDigitCh c && isDigitCh d then some rest
                else none
              | _ => none
          | _ => none
      | _ => none

/-- Match `\([^)]+\)` at the head (ASCII parentheses). -/
def matchParenNE : Str → Option Str
  | '(' :: r =>
    if (r.takeWhile fun c => c ≠ ')').isEmpty then none
    else
      match r.dropWhile fun c => c ≠ ')' with
      | ')' :: rest => some rest
      | _ => none
  | _ => none

/-- Model of `str.isdigit ()` (ASCII digits). -/
def pyIsdigit (l : Str) : Bool := !l.isEmpty && l.all isDigitCh

/-- The per-candidate cleanup of the Yahoo publisher scan
(src/main.py lines 258-261). -/
def yahooCleanCand (t : Str) : Str :=
  pyStrip (subAll matchParenNE (subAll matchYmdHmSp t))

/-- The acceptance test of the Yahoo publisher scan (line 262): nonempty, not
all digits, and containing a letter (`str.isalpha`, modelled for ASCII) or a
character in U+3040..U+9FFF. -/
def yahooAccept (txt : Str) : Bool :=
  !txt.isEmpty && !pyIsdigit txt &&
    txt.any fun c => isAsciiLetter c || (0x3040 ≤ c.toNat && c.toNat ≤ 0x9FFF)

/-- Yahoo publisher candidate scan (src/main.py lines 249-264). -/
def yahooScan : List (Option Str) → Str
  | [] => []
  | none :: rest => yahooScan rest
  | some t :: rest =>
    let txt := yahooCleanCand t
    if yahooAccept txt then txt else yahooScan rest

/-- Yahoo publisher (src/main.py lines 249-266). -/
def yahoo_source (hits : List (Option Str)) (url : Str) : Str :=
  let s := yahooScan hits
  if s.isEmpty then
    let g := publisher_from_url url
    if g.isEmpty then yahooLabel else g
  else s

/-- MSN publisher candidate scan (src/main.py lines 372-379). -/
def msnScan : List (Option Str) → Str
  | [] => []
  | none :: rest => msnScan rest
  | some t :: rest =>
    let cand := clean_source_text t
    if !cand.isEmpty && !is_timeish cand then cand else msnScan rest

/-- MSN publisher (src/main.py lines 370-381). -/
def msn_source (raw : Str) (cands : List (Option Str)) (href : Str) : Str :=
  let s0 := clean_source_text raw
  let s1 := if s0.isEmpty then msnScan cands else s0
  if s1.isEmpty || is_timeish s1 then
    let g := publisher_from_url href
    if g.isEmpty then msnLabel else g
  else s1

/-! ## The spreadsheet writer (src/main.py lines 393-427) -/

/-- The row written for an article. -/
def rowOf (a : Article) : List Str := [a.title, a.url, a.pub, a.source]

/-- `set (row[1] for row in existing[1:] if len (row) > 1)` — as a list whose
membership is the set membership. -/
def existing_urls_of (existing : List (List Str)) : List Str :=
  (existing.drop 1).filterMap fun r => r[1]?

/-- The deduplicating append:
`[[...] for a in articles if a['URL'] not in existing_urls]`. -/
def new_rows_of (articles : List Article) (existing_urls : List Str) : List (List Str) :=
  (articles.filter fun a => !existing_urls.contains a.url).map rowOf

/-- Result of `write_to_spreadsheet`: the batches passed to `append_rows`
on success, or the terminal `RuntimeError`. -/
inductive WriteResult where
  | ok (appends : List (List (List Str)))
  | err
deriving DecidableEq, Repr

/-- The retry loop (`for attempt in range (5)`).  `oracle i` is attempt `i`'s
interaction with the store: `none` when it raises a rate-limit `APIError`
(before anything is appended), `some existing` when the read of the current
sheet values succeeds, after which the dedup and append run and the function
returns. -/
def write_loop (articles : List Article) (oracle : Nat → Option (List (List Str))) :
    Nat → Nat → WriteResult
  | 0, _ => .err
  | n + 1, i =>
    match oracle i with
    | none => write_loop articles oracle n (i + 1)
    | some existing =>
      let nr := new_rows_of articles (existing_urls_of existing)
      .ok (if nr.isEmpty then [] else [nr])

/-- Model of `write_to_spreadsheet` (src/main.py lines 402-427): five
attempts, then the terminal error. -/
def write_to_spreadsheet (articles : List Article)
    (oracle : Nat → Option (List (List Str))) : WriteResult :=
  write_loop articles oracle 5 0

/-! ## Shared lemmas -/

theorem digitOf_isDigit (k : Nat) : isDigitCh (digitOf k) = true := by
  unfold digitOf
  split <;> decide

theorem validFmt_format (dt : DateTime) :
    validTimestampFormat (format_datetime dt) = true := by
  simp [format_datetime, validTimestampFormat, digitAt, digitOf_isDigit]

theorem fmtOpt_shape (o : Option DateTime) :
    fmtOpt o = sentinelL ∨ validTimestampFormat (fmtOpt o) = true := by
  cases o with
  | none => exact Or.inl rfl
  | some dt => exact Or.inr (validFmt_format dt)

theorem ne_nil_of_isEmpty_false {l : Str} (h : l.isEmpty = false) : l ≠ [] := by
  cases l with
  | nil => simp [List.isEmpty] at h
  | cons a t => exact List.cons_ne_nil a t

theorem rowOf_injective : Function.Injective rowOf := by
  intro a b h
  cases a
  cases b
  simp only [rowOf, List.cons.injEq, and_true] at h
  simp_all

theorem count_map_rowOf (l : List Article) (a : Article) :
    List.count (rowOf a) (l.map rowOf) = List.count a l := by
  induction l with
  | nil => rfl
  | cons b t ih =>
    have hbe : (rowOf b == rowOf a) = (b == a) := by
      by_cases h : b = a
      · simp [h]
      · have hr : rowOf b ≠ rowOf a := fun hc => h (rowOf_injective hc)
        simp [h, hr]
    simp [List.count_cons, ih, hbe]

theorem count_filter_article (p : Article → Bool) (l : List Article) (a : Article)
    (h : p a = true) : List.count a (l.filter p) = List.count a l := by
  induction l with
  | nil => rfl
  | cons b t ih =>
    by_cases hb : p b = true
    · rw [List.filter_cons_of_pos hb]
      simp [List.count_cons, ih]
    · rw [List.filter_cons_of_neg (by simpa using hb)]
      have hba : (b == a) = false := by
        by_cases hq : b = a
        · subst hq; exact absurd h hb
        · simp [hq]
      simp [List.count_cons, ih, hba]

theorem count_eq_zero_of_not_mem_filter (p : Article → Bool) (l : List Article) (a : Article)
    (h : p a = false) : List.count a (l.filter p) = 0 := by
  induction l with
  | nil => rfl
  | cons b t ih =>
    by_cases hb : p b = true
    · rw [List.filter_cons_of_pos hb]
      have hba : (b == a) = false := by
        by_cases hq : b = a
        · subst hq; rw [hb] at h; exact absurd h (by simp)
        · simp [hq]
      simp [List.count_cons, ih, hba]
    · rw [List.filter_cons_of_neg (by simpa using hb)]
      exact ih

def exArtA : Article := ⟨['t', '1'], ['A'], ['p', '1'], ['s', '1']⟩
def exArtC : Article := ⟨['t', '2'], ['C'], ['p', '2'], ['s', '2']⟩
def exArtD : Article := ⟨['t', '3'], ['D'], ['p', '3'], ['s', '3']⟩

/-- Claim C6: the deduplicating append selects exactly the subsequence of
candidates whose URL is not in the existing-URL set (a sublist of the
candidate rows, so original relative order is preserved), it keeps within-
batch duplicates (the count of an article's row equals its count among the
candidates whenever its URL is not already present, and is 0 otherwise), and
on the concrete example of existing `{A, B}` with candidates `[A, C, C, D]`
it yields `[C, C, D]`.  The embedding is pure, so `existing_urls` is not
mutated. -/
theorem append_new_dedup_spec :
    (∀ (articles : List Article) (existing_urls : List Str),
        List.Sublist (new_rows_of articles existing_urls) (articles.map rowOf)) ∧
    (∀ (articles : List Article) (existing_urls : List Str) (a : Article),
        List.count (rowOf a) (new_rows_of articles existing_urls) =
          if a.url ∈ existing_urls then 0 else List.count a articles) ∧
    new_rows_of [exArtA, exArtC, exArtC, exArtD] [['A'], ['B']] =
      [rowOf exArtC, rowOf exArtC, rowOf exArtD] := by
  refine ⟨?_, ?_, by decide⟩
  · intro arts urls
    exact (List.filter_sublist arts).map rowOf
  · intro arts urls a
    unfold new_rows_of
    rw [count_map_rowOf]
    by_cases h : a.url ∈ urls
    · rw [if_pos h]
      exact count_eq_zero_of_not_mem_filter _ _ _ (by simp [h])
    · rw [if_neg h]
      exact count_filter_article _ _ _ (by simp [h])

/-- Claim C9: in every finished record of the three extractors the publisher
field is nonempty — each site's resolution chain bottoms out in
`publisher_from_url (...) or "<SiteLabel>"`, and a branch that keeps a
scanned candidate only does so when it is nonempty. -/
theorem publisher_never_empty :
    (∀ (hits : List (Option Str)) (final_url : Str),
        google_source hits final_url ≠ []) ∧
    (∀ (hits : List (Option Str)) (url : Str), yahoo_source hits url ≠ []) ∧
    (∀ (raw : Str) (cands : List (Option Str)) (href : Str),
        msn_source raw cands href ≠ []) := by
  refine ⟨?_, ?_, ?_⟩
  · intro hits u
    unfold google_source
    by_cases h1 : (firstSelectorHit hits).isEmpty
    · simp only [h1, if_true]
      by_cases h2 : (publisher_from_url u).isEmpty
      · simp only [h2, if_true]
        decide
      · simp only [Bool.not_eq_true] at h2
        simp only [h2, if_false]
        exact ne_nil_of_isEmpty_false h2
    · simp only [Bool.not_eq_true] at h1
      simp only [h1, if_false]
      exact ne_nil_of_isEmpty_false h1
  · intro hits u
    unfold yahoo_source
    by_cases h1 : (yahooScan hits).isEmpty
    · simp only [h1, if_true]
      by_cases h2 : (publisher_from_url u).isEmpty
      · simp only [h2, if_true]
        decide
      · simp only [Bool.not_eq_true] at h2
        simp only [h2, if_false]
        exact ne_nil_of_isEmpty_false h2
    · simp only [Bool.not_eq_true] at h1
      simp only [h1, if_false]
      exact ne_nil_of_isEmpty_false h1
  · intro raw cands href
    unfold msn_source
    by_cases h1 : ((if (clean_source_text raw).isEmpty then msnScan cands
        else clean_source_text raw).isEmpty ||
          is_timeish (if (clean_source_text raw).isEmpty then msnScan cands
            else clean_source_text raw)) = true
    · simp only [h1, if_true]
      by_cases h2 : (publisher_from_url href).isEmpty
      · simp only [h2, if_true]
        decide
      · simp only [Bool.not_eq_true] at h2
        simp only [h2, if_false]
        exact ne_nil_of_isEmpty_false h2
    · simp only [Bool.not_eq_true] at h1
      simp only [h1, if_false]
      have h3 : (if (clean_source_text raw).isEmpty then msnScan cands
          else clean_source_text raw).isEmpty = false := by
        rcases Bool.or_eq_false_iff.mp h1 with ⟨ha, _⟩
        exact ha
      exact ne_nil_of_isEmpty_false h3

theorem write_loop_err (articles : List Article) (oracle : Nat → Option (List (List Str))) :
    ∀ n i, (∀ j, j < n → oracle (i + j) = none) →
      write_loop articles oracle n i = WriteResult.err := by
  intro n
  induction n with
  | zero => intro i _; rfl
  | succ n ih =>
    intro i h
    have h0 : oracle i = none := by simpa using h 0 (Nat.succ_pos n)
    unfold write_loop
    rw [h0]
    exact ih (i + 1) fun j hj => by
      rw [show i + 1 + j = i + (j + 1) by omega]
      exact h (j + 1) (by omega)

theorem write_loop_ok (articles : List Article) (oracle : Nat → Option (List (List Str))) :
    ∀ k n i existing, k < n → (∀ j, j < k → oracle (i + j) = none) →
      oracle (i + k) = some existing →
      write_loop articles oracle n i =
        WriteResult.ok (if (new_rows_of articles (existing_urls_of existing)).isEmpty then []
          else [new_rows_of articles (existing_urls_of existing)]) := by
  intro k
  induction k with
  | zero =>
    intro n i existing hk _ hs
    match n, hk with
    | n + 1, _ =>
      unfold write_loop
      rw [show i + 0 = i from rfl] at hs
      rw [hs]
  | succ k ih =>
    intro n i existing hk hnone hs
    match n, hk with
    | n + 1, hk =>
      have h0 : oracle i = none := by simpa using hnone 0 (Nat.succ_pos k)
      unfold write_loop
      rw [h0]
      refine ih n (i + 1) existing (by omega) (fun j hj => ?_) ?_
      · rw [show i + 1 + j = i + (j + 1) by omega]
        exact hnone (j + 1) (by omega)
      · rw [show i + 1 + k = i + (k + 1) by omega]
        exact hs

/-- Claim C10: five consecutive rate-limit failures make
`write_to_spreadsheet` raise the terminal error; if fewer than five attempts
fail and one then succeeds, the result is a normal return in which the new
rows (deduplicated against the snapshot that successful attempt read) are
appended exactly once — one `append_rows` batch when there is something new,
none otherwise — and no error is raised. -/
theorem store_write_retry_behavior (articles : List Article)
    (oracle : Nat → Option (List (List Str))) :
    ((∀ i, i < 5 → oracle i = none) → write_to_spreadsheet articles oracle = WriteResult.err) ∧
    (∀ k existing, k < 5 → (∀ j, j < k → oracle j = none) → oracle k = some existing →
      write_to_spreadsheet articles oracle =
        WriteResult.ok (if (new_rows_of articles (existing_urls_of existing)).isEmpty then []
          else [new_rows_of articles (existing_urls_of existing)]) ∧
      (if (new_rows_of articles (existing_urls_of existing)).isEmpty then
          ([] : List (List (List Str)))
        else [new_rows_of articles (existing_urls_of existing)]).length ≤ 1) := by
  constructor
  · intro h
    exact write_loop_err articles oracle 5 0 fun j hj => by simpa using h j hj
  · intro k existing hk hnone hs
    refine ⟨?_, ?_⟩
    · exact write_loop_ok articles oracle k 5 0 existing hk
        (fun j hj => by simpa using hnone j hj) (by simpa using hs)
    · by_cases h : (new_rows_of articles (existing_urls_of existing)).isEmpty
      · simp [h]
      · simp [h]

def exSheet : List (List Str) :=
  [[['タ'], ['U'], ['投'], ['引']], [['t', '0'], ['u', '0'], ['p', '0'], ['s', '0']]]

def exOracleFail : Nat → Option (List (List Str)) := fun _ => none

def exOracleThird : Nat → Option (List (List Str)) := fun i =>
  if i = 2 then some exSheet else none

/-- Witness for C10 at concrete inputs: an always-failing oracle yields the
terminal error, and an oracle failing twice then succeeding appends the one
new row exactly once. -/
theorem store_write_retry_behavior_witness :
    write_to_spreadsheet [exArtA] exOracleFail = WriteResult.err ∧
    write_to_spreadsheet [exArtA] exOracleThird =
      WriteResult.ok [[rowOf exArtA]] := by
  constructor
  · exact (store_write_retry_behavior [exArtA] exOracleFail).1 fun i _ => rfl
  · have h := ((store_write_retry_behavior [exArtA] exOracleThird).2 2 exSheet
      (by omega) (by decide) (by decide)).1
    simpa using h

theorem parse_relative_time_shape (l : Str) (now : DateTime) :
    parse_relative_time l now = sentinelL ∨
      validTimestampFormat (parse_relative_time l now) = true := by
  unfold parse_relative_time
  split
  · exact Or.inl rfl
  · dsimp only
    split
    · exact fmtOpt_shape _
    · split
      · exact fmtOpt_shape _
      · split
        · exact fmtOpt_shape _
        · split
          · exact fmtOpt_shape _
          · split
            · exact fmtOpt_shape _
            · split
              · split
                · exact Or.inl rfl
                · split
                  · exact fmtOpt_shape _
                  · exact Or.inr (validFmt_format _)
              · exact Or.inl rfl

/-- Claim C4: `parse_relative_time` never raises (it is a total function of
the embedding; every Python exception path is an explicit sentinel return),
an empty label yields the sentinel, and for every label and reference time
the output is either the sentinel or a string in the exact shape
`YYYY/MM/DD HH:MM`. -/
theorem parse_relative_time_total_shape :
    (∀ now : DateTime, parse_relative_time [] now = sentinelL) ∧
    (∀ (label : Str) (now : DateTime),
        parse_relative_time label now = sentinelL ∨
          validTimestampFormat (parse_relative_time label now) = true) :=
  ⟨fun _ => rfl, fun label now => parse_relative_time_shape label now⟩

theorem glm_shape (lm : Option DateTime) :
    get_last_modified_datetime lm = sentinelL ∨
      validTimestampFormat (get_last_modified_datetime lm) = true := by
  unfold get_last_modified_datetime
  split
  · exact Or.inr (validFmt_format _)
  · exact Or.inl rfl

theorem msn_label_date_shape (label : Str) (now : DateTime) :
    msn_label_date label now = sentinelL ∨
      validTimestampFormat (msn_label_date label now) = true := by
  unfold msn_label_date
  split
  · exact Or.inl rfl
  · split
    · split
      · exact Or.inr (validFmt_format _)
      · exact Or.inl rfl
    · exact parse_relative_time_shape label now

/-- Claim C1 (amended): the `published_at` field is always either a string in
the exact shape `YYYY/MM/DD HH:MM` or exactly the sentinel for the Google and
MSN extractors; the Yahoo extractor satisfies this only when its label parses
as `%Y/%m/%d %H:%M` — on parse failure it emits the raw label (stripped of a
weekday parenthetical) as-is. -/
theorem published_at_shape_by_site :
    (∀ iso : Str, (google_pub_date iso).all validTimestampFormat = true) ∧
    (∀ (label : Str) (now : DateTime) (lastModified : Option DateTime),
        msn_pub_date label now lastModified = sentinelL ∨
          validTimestampFormat (msn_pub_date label now lastModified) = true) ∧
    (∀ date_str : Str,
        yahoo_pub_date date_str = sentinelL ∨
          validTimestampFormat (yahoo_pub_date date_str) = true ∨
          yahoo_pub_date date_str = pyStrip (subAll matchYahooWeekday date_str)) := by
  refine ⟨?_, ?_, ?_⟩
  · intro iso
    cases h : (strptimeISO iso).bind fun dt => shiftMin dt 540 with
    | none => simp [google_pub_date, h]
    | some dt => simp [google_pub_date, h, validFmt_format]
  · intro label now lastModified
    unfold msn_pub_date
    dsimp only
    split
    · exact glm_shape lastModified
    · exact msn_label_date_shape label now
  · intro ds
    unfold yahoo_pub_date
    split
    · exact Or.inl rfl
    · dsimp only
      split
      · exact Or.inr (Or.inl (validFmt_format _))
      · exact Or.inr (Or.inr rfl)

/-- Counterexample to C1 as stated: Yahoo emits the raw unparsed label
`5分前` (a relative-time string its `%Y/%m/%d %H:%M` parse rejects) as the
`published_at` value — neither a `YYYY/MM/DD HH:MM` string nor the
sentinel. -/
theorem published_at_yahoo_raw_label_counterexample :
    yahoo_pub_date ['5', '分', '前'] = ['5', '分', '前'] ∧
    validTimestampFormat ['5', '分', '前'] = false ∧
    (['5', '分', '前'] : Str) ≠ sentinelL := ⟨by decide, by decide, by decide⟩

theorem isEmpty_false_of_ne_nil {l : Str} (h : l ≠ []) : l.isEmpty = false := by
  cases l with
  | nil => exact absurd rfl h
  | cons a t => rfl

def urlMsnWww : Str :=
  ['h', 't', 't', 'p', 's', ':', '/', '/', 'w', 'w', 'w', '.', 'm', 's', 'n', '.', 'c', 'o',
   'm', '/', 'j', 'a']
def urlExampleBlog : Str :=
  ['h', 't', 't', 'p', 's', ':', '/', '/', 'e', 'x', 'a', 'm', 'p', 'l', 'e', '-', 'b', 'l',
   'o', 'g', '.', 'j', 'p', '/', 'p', 'o', 's', 't']
def urlFooBar : Str :=
  ['h', 't', 't', 'p', 's', ':', '/', '/', 'w', 'w', 'w', '.', 'f', 'o', 'o', '_', 'b', 'a',
   'r', '.', 'c', 'o', 'm', '/', 'x']
def urlMsnPort : Str :=
  ['h', 't', 't', 'p', 's', ':', '/', '/', 'm', 's', 'n', '.', 'c', 'o', 'm', ':', '4', '4',
   '3', '/', 'a']

/-- Claim C8 (amended): `publisher_from_url` maps a URL whose netloc —
including any explicit port — ends in `msn.com` to `MSN`; with an explicit
port the check fails and the generic rule applies to the port-stripped host
instead.  For an unmapped host it strips a leading `www.`, takes the
second-level domain label, replaces hyphens and underscores with spaces and
capitalizes the first letter (`https://example-blog.jp/post ↦ Example blog`,
`https://www.foo_bar.com/x ↦ Foo bar`); an absent or unparseable netloc
yields the empty string and the function never raises (it is total). -/
theorem publisher_from_url_rules :
    (∀ (url n : Str), netlocOf url = some n →
        endsWithL (lowerL n) msnDomain = true → publisher_from_url url = msnLabel) ∧
    (∀ url : Str, netlocOf url = none → publisher_from_url url = []) ∧
    (∀ url : Str, netlocOf url = some [] → publisher_from_url url = []) ∧
    publisher_from_url urlExampleBlog =
      ['E', 'x', 'a', 'm', 'p', 'l', 'e', ' ', 'b', 'l', 'o', 'g'] ∧
    publisher_from_url urlFooBar = ['F', 'o', 'o', ' ', 'b', 'a', 'r'] := by
  refine ⟨?_, ?_, ?_, by decide, by decide⟩
  · intro url n h1 h2
    have hsuf : msnDomain <:+ lowerL n := of_decide_eq_true h2
    have hne : lowerL n ≠ [] := by
      intro h0
      rw [h0] at hsuf
      have h3 : msnDomain = [] := List.suffix_nil.mp hsuf
      exact absurd h3 (by decide)
    unfold publisher_from_url
    rw [h1]
    dsimp only
    rw [isEmpty_false_of_ne_nil hne]
    simp only [Bool.false_eq_true, if_false, h2, if_true]
  · intro url h1
    unfold publisher_from_url
    rw [h1]
  · intro url h1
    unfold publisher_from_url
    rw [h1]
    rfl

/-- Counterexample to C8 as stated: `https://msn.com:443/a` has host
`msn.com`, which ends in the aggregator domain, yet the code checks the
port-carrying netloc `msn.com:443`, so the rule does not fire and the generic
capitalization rule yields `Msn`, not `MSN`. -/
theorem publisher_from_url_port_counterexample :
    publisher_from_url urlMsnPort = ['M', 's', 'n'] ∧
    urlHost urlMsnPort = msnDomain ∧
    (['M', 's', 'n'] : Str) ≠ msnLabel := ⟨by decide, by decide, by decide⟩

/-- Witness for C8 at a concrete input: a portless `msn.com` URL maps to
`MSN`. -/
theorem publisher_from_url_rules_witness :
    publisher_from_url urlMsnWww = msnLabel :=
  publisher_from_url_rules.1 urlMsnWww
    ['w', 'w', 'w', '.', 'm', 's', 'n', '.', 'c', 'o', 'm'] (by decide) (by decide)

/-! ## String lemmas for the label-parsing claims -/

theorem takeWhile_append_of_all {p : Char → Bool} (xs ys : Str)
    (h : ∀ c ∈ xs, p c = true) : (xs ++ ys).takeWhile p = xs ++ ys.takeWhile p := by
  induction xs with
  | nil => rfl
  | cons a t ih =>
    have ha : p a = true := h a (List.mem_cons_self a t)
    simp only [List.cons_append, List.takeWhile_cons, ha, if_true]
    rw [ih fun c hc => h c (List.mem_cons_of_mem a hc)]

theorem dropWhile_append_of_all {p : Char → Bool} (xs ys : Str)
    (h : ∀ c ∈ xs, p c = true) : (xs ++ ys).dropWhile p = ys.dropWhile p := by
  induction xs with
  | nil => rfl
  | cons a t ih =>
    have ha : p a = true := h a (List.mem_cons_self a t)
    simp only [List.cons_append, List.dropWhile_cons, ha, if_true]
    exact ih fun c hc => h c (List.mem_cons_of_mem a hc)

theorem takeWhile_eq_nil_of_head {p : Char → Bool} {l : Str}
    (h : ∀ c, l.head? = some c → p c = false) : l.takeWhile p = [] := by
  cases l with
  | nil => rfl
  | cons a t =>
    have ha : p a = false := h a rfl
    simp [List.takeWhile_cons, ha]

theorem dropWhile_eq_self_of_head {p : Char → Bool} {l : Str}
    (h : ∀ c, l.head? = some c → p c = false) : l.dropWhile p = l := by
  cases l with
  | nil => rfl
  | cons a t =>
    have ha : p a = false := h a rfl
    simp [List.dropWhile_cons, ha]

theorem stripBy_eq_self {p : Char → Bool} {l : Str}
    (h1 : ∀ c, l.head? = some c → p c = false)
    (h2 : ∀ c, l.getLast? = some c → p c = false) : stripBy p l = l := by
  unfold stripBy
  rw [dropWhile_eq_self_of_head h1]
  rw [dropWhile_eq_self_of_head fun c hc => h2 c (by rwa [← List.head?_reverse])]
  exact List.reverse_reverse l

theorem map_id_of_fixed {f : Char → Char} : ∀ l : Str, (∀ c ∈ l, f c = c) → l.map f = l := by
  intro l h
  induction l with
  | nil => rfl
  | cons a t ih =>
    rw [List.map_cons, h a (List.mem_cons_self a t),
      ih fun c hc => h c (List.mem_cons_of_mem a hc)]

theorem isSpCh_false_of_digit {c : Char} (h : isDigitCh c = true) : isSpCh c = false := by
  simp only [isDigitCh, Bool.and_eq_true, decide_eq_true_eq] at h
  simp only [isSpCh, Bool.or_eq_false_iff, Bool.and_eq_false_iff, decide_eq_false_iff_not]
  omega

theorem toLowerCh_digit {c : Char} (h : isDigitCh c = true) : toLowerCh c = c := by
  simp only [isDigitCh, Bool.and_eq_true, decide_eq_true_eq] at h
  unfold toLowerCh
  rw [if_neg]
  simp only [Bool.and_eq_true, decide_eq_true_eq, not_and]
  omega

theorem infix_of_containsStr {l p : Str} (h : containsStr l p = true) : p <:+: l :=
  of_decide_eq_true h

theorem containsStr_of_infix {l p : Str} (h : p <:+: l) : containsStr l p = true :=
  decide_eq_true h

theorem containsStr_false_of_char {l p : Str} (c : Char) (hc : c ∈ p) (hl : c ∉ l) :
    containsStr l p = false := by
  cases hcs : containsStr l p with
  | false => rfl
  | true => exact absurd ((infix_of_containsStr hcs).subset hc) hl

theorem firstDigitRun_spec {ds rest : Str} (h1 : ds ≠ [])
    (h2 : ∀ c ∈ ds, isDigitCh c = true)
    (h3 : ∀ c, rest.head? = some c → isDigitCh c = false) :
    firstDigitRun (ds ++ rest) = some ds := by
  unfold firstDigitRun
  have hd : (ds ++ rest).dropWhile (fun c => !isDigitCh c) = ds ++ rest := by
    refine dropWhile_eq_self_of_head ?_
    intro c hc
    cases ds with
    | nil => exact absurd rfl h1
    | cons a t =>
      simp only [List.cons_append, List.head?_cons, Option.some.injEq] at hc
      subst hc
      simp [h2 a (List.mem_cons_self a t)]
  rw [hd, takeWhile_append_of_all _ _ h2, takeWhile_eq_nil_of_head h3, List.append_nil]
  cases ds with
  | nil => exact absurd rfl h1
  | cons a t => rfl

theorem getLast?_append_right {xs ys : Str} (h : ys ≠ []) :
    (xs ++ ys).getLast? = ys.getLast? := by
  rw [List.getLast?_append_of_ne_nil xs h]

theorem label_normalize (ds rest : Str) (hne : ds ≠ [])
    (hdig : ∀ c ∈ ds, isDigitCh c = true) (hrest_ne : rest ≠ [])
    (hrest_fix : ∀ c ∈ rest, toLowerCh c = c)
    (hlast : ∀ c, rest.getLast? = some c → isSpCh c = false) :
    lowerL (pyStrip (ds ++ rest)) = ds ++ rest := by
  have hstrip : pyStrip (ds ++ rest) = ds ++ rest := by
    refine stripBy_eq_self ?_ ?_
    · intro c hc
      cases ds with
      | nil => exact absurd rfl hne
      | cons a t =>
        simp only [List.cons_append, List.head?_cons, Option.some.injEq] at hc
        subst hc
        exact isSpCh_false_of_digit (hdig a (List.mem_cons_self a t))
    · intro c hc
      rw [getLast?_append_right hrest_ne] at hc
      exact hlast c hc
  rw [pyStrip] at hstrip
  unfold pyStrip
  rw [hstrip]
  unfold lowerL
  rw [List.map_append, map_id_of_fixed ds fun c hc => toLowerCh_digit (hdig c hc),
    map_id_of_fixed rest hrest_fix]

def minutesAgoJa (ds : Str) : Str := ds ++ ['分', '前']

def minutesAgoEn (ds : Str) : Str :=
  ds ++ [' ', 'm', 'i', 'n', 'u', 't', 'e', 's', ' ', 'a', 'g', 'o']

/-- Claim C3 (amended): for every label `N分前` or `N minutes ago` with `N` a
positive integer written as a digit string `ds`, and every reference time,
`parse_relative_time` returns `now − N minutes` formatted as
`YYYY/MM/DD HH:MM` — provided that difference is representable
(`shiftMin now (−N) = some dt`); when the subtraction leaves the Python
datetime range the swallowed `OverflowError` yields the sentinel instead. -/
theorem parse_minutes_ago (ds : Str) (now dt : DateTime) (hne : ds ≠ [])
    (hdig : ∀ c ∈ ds, isDigitCh c = true) (hpos : 0 < ofDec ds)
    (hshift : shiftMin now (-(ofDec ds : Int)) = some dt) :
    parse_relative_time (minutesAgoJa ds) now = format_datetime dt ∧
    parse_relative_time (minutesAgoEn ds) now = format_datetime dt := by
  constructor
  · have hnorm := label_normalize ds ['分', '前'] hne hdig (by decide) (by decide)
      fun c hc => by
        simp only [show (['分', '前'] : Str).getLast? = some '前' from rfl,
          Option.some.injEq] at hc
        subst hc
        decide
    have hlabne : minutesAgoJa ds ≠ [] := by
      unfold minutesAgoJa
      simp
    unfold parse_relative_time
    rw [isEmpty_false_of_ne_nil hlabne]
    dsimp only
    unfold minutesAgoJa at hnorm ⊢
    rw [hnorm]
    have hc1 : containsStr (ds ++ ['分', '前']) jMinMark = true :=
      containsStr_of_infix (List.suffix_append ds ['分', '前']).isInfix
    simp only [hc1, Bool.true_or, if_true]
    rw [firstDigitRun_spec hne hdig fun c hc => by
      simp only [List.head?_cons, Option.some.injEq] at hc
      subst hc
      decide]
    simp only [Option.some_bind]
    rw [hshift]
    rfl
  · have hnorm := label_normalize
      ds [' ', 'm', 'i', 'n', 'u', 't', 'e', 's', ' ', 'a', 'g', 'o'] hne hdig
      (by decide) (by decide) fun c hc => by
        simp only [show ([' ', 'm', 'i', 'n', 'u', 't', 'e', 's', ' ', 'a', 'g', 'o'] :
          Str).getLast? = some 'o' from rfl, Option.some.injEq] at hc
        subst hc
        decide
    have hlabne : minutesAgoEn ds ≠ [] := by
      unfold minutesAgoEn
      simp
    unfold parse_relative_time
    rw [isEmpty_false_of_ne_nil hlabne]
    dsimp only
    unfold minutesAgoEn at hnorm ⊢
    rw [hnorm]
    have hc2 : containsStr (ds ++ [' ', 'm', 'i', 'n', 'u', 't', 'e', 's', ' ', 'a', 'g', 'o'])
        eMinMark = true :=
      containsStr_of_infix
        ((by decide : eMinMark <:+: [' ', 'm', 'i', 'n', 'u', 't', 'e', 's', ' ', 'a', 'g', 'o']).trans
          (List.suffix_append ds _).isInfix)
    simp only [hc2, Bool.or_true, if_true]
    rw [firstDigitRun_spec hne hdig fun c hc => by
      simp only [List.head?_cons, Option.some.injEq] at hc
      subst hc
      decide]
    simp only [Option.some_bind]
    rw [hshift]
    rfl

/-- Witness for C3 at a concrete input: `3分前` and `3 minutes ago` at
2025-01-01 00:00 both yield 2024-12-31 23:57. -/
theorem parse_minutes_ago_witness :
    parse_relative_time (minutesAgoJa ['3']) ⟨2025, 1, 1, 0, 0⟩ =
      format_datetime ⟨2024, 12, 31, 23, 57⟩ ∧
    parse_relative_time (minutesAgoEn ['3']) ⟨2025, 1, 1, 0, 0⟩ =
      format_datetime ⟨2024, 12, 31, 23, 57⟩ :=
  parse_minutes_ago ['3'] ⟨2025, 1, 1, 0, 0⟩ ⟨2024, 12, 31, 23, 57⟩ (by decide)
    (by decide) (by decide) (by decide)

/-- Counterexample to C3 as stated: `1200000000分前` (N = 1 200 000 000, a
positive integer, about 2283 years of minutes) underflows `datetime.min`;
the swallowed `OverflowError` yields the sentinel, which is not a formatted
`now − N minutes`. -/
theorem parse_minutes_ago_overflow_counterexample :
    parse_relative_time
        (minutesAgoJa ['1', '2', '0', '0', '0', '0', '0', '0', '0', '0'])
        ⟨2025, 1, 1, 0, 0⟩ = sentinelL ∧
    validTimestampFormat sentinelL = false := ⟨by decide, by decide⟩

theorem takeWhile_all {p : Char → Bool} : ∀ l : Str, ∀ c ∈ l.takeWhile p, p c = true := by
  intro l
  induction l with
  | nil =>
    intro c hc
    simp at hc
  | cons a t ih =>
    intro c hc
    rw [List.takeWhile_cons] at hc
    by_cases ha : p a = true
    · simp only [ha, if_true] at hc
      rcases List.mem_cons.mp hc with rfl | hc2
      · exact ha
      · exact ih c hc2
    · simp only [Bool.not_eq_true] at ha
      simp [ha] at hc

theorem not_mem_of_digit_or_colon {x : Char} {l : Str}
    (hclass : ∀ c ∈ l, isDigitCh c = true ∨ c = ':')
    (hx1 : isDigitCh x = false) (hx2 : x ≠ ':') : x ∉ l := by
  intro hmem
  rcases hclass x hmem with hcl | hcl
  · rw [hcl] at hx1
    exact Bool.noConfusion hx1
  · exact hx2 hcl

/-- Spec-side predicate for C5: the processed label is exactly a bare `H:MM`
which branch 6 both regex-matches (`\d{1,2}:\d{2}`) and `strptime`-parses:
one or two hour digits with value ≤ 23, a colon, exactly two minute digits
with value ≤ 59, and nothing else. -/
def parseHMfull (l : Str) : Option (Nat × Nat) :=
  let hd := l.takeWhile isDigitCh
  let r1 := l.dropWhile isDigitCh
  if (hd.length = 1 ∨ hd.length = 2) ∧ r1.head? = some ':' ∧ r1.tail.length = 2 ∧
      (∀ c ∈ r1.tail, isDigitCh c = true) ∧ ofDec hd ≤ 23 ∧ ofDec r1.tail ≤ 59 then
    some (ofDec hd, ofDec r1.tail)
  else none

/-- Claim C5 (amended): for every bare `H:MM` label accepted by the time-only
branch and every reference time `now`, the result combines the clock time
with `now`'s calendar date; when that combined timestamp is strictly in the
future relative to `now`, exactly one day is subtracted (never more) —
provided the rolled-back value is still representable
(`shiftMin comb (−1440) = some dt`); at `datetime.min` the swallowed
`OverflowError` yields the sentinel instead. -/
theorem parse_bare_time_rollback (label : Str) (now : DateTime) (h mi : Nat)
    (hp : parseHMfull (lowerL (pyStrip label)) = some (h, mi)) :
    (¬ toAbsMin now < toAbsMin (⟨now.year, now.month, now.day, h, mi⟩ : DateTime) →
        parse_relative_time label now =
          format_datetime ⟨now.year, now.month, now.day, h, mi⟩) ∧
    (∀ dt' : DateTime,
        toAbsMin now < toAbsMin (⟨now.year, now.month, now.day, h, mi⟩ : DateTime) →
        shiftMin (⟨now.year, now.month, now.day, h, mi⟩ : DateTime) (-1440) = some dt' →
        parse_relative_time label now = format_datetime dt') := by
  unfold parseHMfull at hp
  dsimp only at hp
  split at hp
  case isFalse => exact Option.noConfusion hp
  case isTrue hcond =>
  obtain ⟨hlen, hhead, htlen, htall, hh23, hmi59⟩ := hcond
  have hh : ofDec ((lowerL (pyStrip label)).takeWhile isDigitCh) = h := by
    injection hp with hp2
    exact congrArg Prod.fst hp2
  have hmiv : ofDec ((lowerL (pyStrip label)).dropWhile isDigitCh).tail = mi := by
    injection hp with hp2
    exact congrArg Prod.snd hp2
  have hlabne : label.isEmpty = false := by
    cases label with
    | cons a t => rfl
    | nil =>
      exfalso
      rcases hlen with h1 | h1 <;> simp [pyStrip, stripBy, lowerL] at h1
  -- decompose the processed label
  cases hr : (lowerL (pyStrip label)).dropWhile isDigitCh with
  | nil =>
    rw [hr] at hhead
    exact Option.noConfusion hhead
  | cons c t =>
    rw [hr] at hhead htlen htall hmiv hmi59
    simp only [List.head?_cons, Option.some.injEq] at hhead
    subst hhead
    simp only [List.tail_cons] at htlen htall hmiv hmi59
    obtain ⟨m1, m2, rfl⟩ := List.length_eq_two.mp htlen
    have hm1 : isDigitCh m1 = true := htall m1 (by simp)
    have hm2 : isDigitCh m2 = true := htall m2 (by simp)
    have hdall : ∀ c ∈ (lowerL (pyStrip label)).takeWhile isDigitCh, isDigitCh c = true :=
      takeWhile_all _
    have hleq : lowerL (pyStrip label) =
        (lowerL (pyStrip label)).takeWhile isDigitCh ++ ':' :: [m1, m2] := by
      conv_lhs => rw [← List.takeWhile_append_dropWhile isDigitCh (lowerL (pyStrip label))]
      rw [hr]
    have hclass : ∀ c ∈ lowerL (pyStrip label), isDigitCh c = true ∨ c = ':' := by
      intro c hc
      rw [hleq] at hc
      rcases List.mem_append.mp hc with hc | hc
      · exact Or.inl (hdall c hc)
      · rcases List.mem_cons.mp hc with rfl | hc
        · exact Or.inr rfl
        · rcases List.mem_cons.mp hc with rfl | hc
          · exact Or.inl hm1
          · rcases List.mem_cons.mp hc with rfl | hc
            · exact Or.inl hm2
            · simp at hc
    have g1 : containsStr (lowerL (pyStrip label)) jMinMark = false :=
      containsStr_false_of_char '分' (by decide)
        (not_mem_of_digit_or_colon hclass (by decide) (by decide))
    have g2 : containsStr (lowerL (pyStrip label)) eMinMark = false :=
      containsStr_false_of_char 'm' (by decide)
        (not_mem_of_digit_or_colon hclass (by decide) (by decide))
    have g3 : containsStr (lowerL (pyStrip label)) jHourMark = false :=
      containsStr_false_of_char '時' (by decide)
        (not_mem_of_digit_or_colon hclass (by decide) (by decide))
    have g4 : containsStr (lowerL (pyStrip label)) eHourMark = false :=
      containsStr_false_of_char 'h' (by decide)
        (not_mem_of_digit_or_colon hclass (by decide) (by decide))
    have g5 : containsStr (lowerL (pyStrip label)) jDayMark = false :=
      containsStr_false_of_char '日' (by decide)
        (not_mem_of_digit_or_colon hclass (by decide) (by decide))
    have g6 : containsStr (lowerL (pyStrip label)) eDayMark = false :=
      containsStr_false_of_char 'd' (by decide)
        (not_mem_of_digit_or_colon hclass (by decide) (by decide))
    have g7 : matchMonthDayPrefix (lowerL (pyStrip label)) = false := by
      unfold matchMonthDayPrefix
      rw [hr]
      simp
    have g8 : matchYMDPrefix (lowerL (pyStrip label)) = false := by
      rcases hlen with h1 | h1
      · obtain ⟨a, ha⟩ := List.length_eq_one.mp h1
        have hda : isDigitCh a = true := hdall a (by rw [ha]; simp)
        rw [hleq, ha]
        unfold matchYMDPrefix digits4
        simp [show isDigitCh ':' = false from rfl]
      · obtain ⟨a, b, hab⟩ := List.length_eq_two.mp h1
        have hda : isDigitCh a = true := hdall a (by rw [hab]; simp)
        have hdb : isDigitCh b = true := hdall b (by rw [hab]; simp)
        rw [hleq, hab]
        unfold matchYMDPrefix digits4
        simp [show isDigitCh ':' = false from rfl]
    have g9 : reMatchHM (lowerL (pyStrip label)) = true := by
      unfold reMatchHM
      rw [hr]
      rcases hlen with h1 | h1 <;> simp [h1, hm1, hm2]
    have hd12 : digits12 (lowerL (pyStrip label)) =
        some (ofDec ((lowerL (pyStrip label)).takeWhile isDigitCh), ':' :: [m1, m2]) := by
      unfold digits12
      dsimp only
      rw [if_pos (by rcases hlen with h1 | h1 <;> simp [h1])]
      rw [hr]
    have hd12b : digits12 [m1, m2] = some (ofDec [m1, m2], []) := by
      unfold digits12
      dsimp only
      rw [show ([m1, m2] : Str).takeWhile isDigitCh = [m1, m2] by
        simp [List.takeWhile_cons, hm1, hm2]]
      rw [show ([m1, m2] : Str).dropWhile isDigitCh = [] by
        simp [List.dropWhile_cons, hm1, hm2]]
      simp
    have g10 : strptimeHM (lowerL (pyStrip label)) = some (h, mi) := by
      unfold strptimeHM
      rw [hd12]
      dsimp only
      rw [show expectCh ':' (':' :: [m1, m2]) = some [m1, m2] from rfl]
      dsimp only
      rw [hd12b]
      dsimp only
      rw [if_pos ⟨rfl, hh23, hmi59⟩]
      rw [hh, hmiv]
    have key : parse_relative_time label now =
        (if toAbsMin now <
            toAbsMin (⟨now.year, now.month, now.day, h, mi⟩ : DateTime) then
          fmtOpt (shiftMin (⟨now.year, now.month, now.day, h, mi⟩ : DateTime) (-1440))
        else format_datetime ⟨now.year, now.month, now.day, h, mi⟩) := by
      unfold parse_relative_time
      rw [hlabne]
      dsimp only
      simp only [g1, g2, g3, g4, g5, g6, g7, g8, g9, g10, Bool.or_self,
        Bool.false_eq_true, if_false, if_true]
    constructor
    · intro hnf
      rw [key, if_neg hnf]
    · intro dt' hf hs
      rw [key, if_pos hf, hs]
      rfl

/-- Witness for C5 at a concrete input: the label `23:59` at reference time
2025-06-15 10:00 is in the future, and rolls back exactly one day to
2025-06-14 23:59. -/
theorem parse_bare_time_rollback_witness :
    parse_relative_time ['2', '3', ':', '5', '9'] ⟨2025, 6, 15, 10, 0⟩ =
      format_datetime ⟨2025, 6, 14, 23, 59⟩ :=
  (parse_bare_time_rollback ['2', '3', ':', '5', '9'] ⟨2025, 6, 15, 10, 0⟩ 23 59
    (by decide)).2 ⟨2025, 6, 14, 23, 59⟩ (by decide) (by decide)

/-- Counterexample to C5 as stated: at `now = datetime.min`
(0001-01-01 00:00) the bare label `0:01` combines to a strictly-future
timestamp, but subtracting one day underflows the datetime range;
the swallowed `OverflowError` yields the sentinel rather than the
promised rolled-back timestamp. -/
theorem parse_bare_time_rollback_counterexample :
    parse_relative_time ['0', ':', '0', '1'] ⟨1, 1, 1, 0, 0⟩ = sentinelL ∧
    toAbsMin (⟨1, 1, 1, 0, 0⟩ : DateTime) < toAbsMin (⟨1, 1, 1, 0, 1⟩ : DateTime) ∧
    validTimestampFormat sentinelL = false := ⟨by decide, by decide, by decide⟩

/-! ## Stability of the cleaner (claim C2) -/

/-- Characters that can feed some strip step of `clean_source_text`: digits
(time expressions), `m`/`M` (the MSN markers), `提`/`配` (the attribution
markers), the decorative dots, and the ASCII open parenthesis. -/
def cleanBadCh (c : Char) : Bool :=
  isDigitCh c || c = 'm' || c = 'M' || c = '提' || c = '配' || c = '・' || c = '•' ||
    c = '·' || c = '('

/-- No two adjacent whitespace characters. -/
def noDoubleWs : Str → Bool
  | [] => true
  | [_] => true
  | a :: b :: r => !(isSpCh a && isSpCh b) && noDoubleWs (b :: r)

/-- A string on which every strip step of `clean_source_text` is the
identity. -/
def cleanStable (s : Str) : Bool :=
  s.isEmpty ||
    (s.all (fun c => !cleanBadCh c) && noDoubleWs s &&
      (match s.head? with
       | some c => !(isSpCh c || inSepStrip c)
       | none => true) &&
      (match s.getLast? with
       | some c => !(isSpCh c || inSepStrip c)
       | none => true))

theorem not_bad_elim {c : Char} (h : cleanBadCh c = false) :
    isDigitCh c = false ∧ c ≠ 'm' ∧ c ≠ 'M' ∧ c ≠ '提' ∧ c ≠ '配' ∧
    c ≠ '・' ∧ c ≠ '•' ∧ c ≠ '·' ∧ c ≠ '(' := by
  unfold cleanBadCh at h
  simp only [Bool.or_eq_false_iff, decide_eq_false_iff_not] at h
  tauto

theorem takeWhile_eq_nil_of_all_false {p : Char → Bool} {l : Str}
    (h : ∀ c ∈ l, p c = false) : l.takeWhile p = [] := by
  cases l with
  | nil => rfl
  | cons a t => simp [List.takeWhile_cons, h a (List.mem_cons_self a t)]

theorem mem_of_dropWhile {p : Char → Bool} {l : Str} {c : Char}
    (h : c ∈ l.dropWhile p) : c ∈ l :=
  (List.dropWhile_suffix p).subset h

theorem subAllF_id {f : Str → Option Str} :
    ∀ (n : Nat) (l : Str), (∀ l2 : Str, l2 <:+ l → f l2 = none) → subAllF f n l = l := by
  intro n
  induction n with
  | zero => intro l _; rfl
  | succ n ih =>
    intro l h
    cases l with
    | nil => rfl
    | cons c cs =>
      unfold subAllF
      rw [h (c :: cs) (List.suffix_refl _)]
      rw [ih cs fun l2 hsuf => h l2 (hsuf.trans (List.suffix_cons c cs))]

theorem subAll_id {f : Str → Option Str} {l : Str}
    (h : ∀ l2 : Str, l2 <:+ l → f l2 = none) : subAll f l = l :=
  subAllF_id _ l h

theorem matchMSNHaisin_none {l : Str} (h : 'M' ∉ l) : matchMSNHaisin l = none := by
  unfold matchMSNHaisin
  split
  · exact absurd (List.mem_cons_self _ _) h
  · rfl

theorem matchTeikyou_none {l : Str} (h1 : '提' ∉ l) (h2 : '配' ∉ l) :
    matchTeikyou l = none := by
  unfold matchTeikyou
  split
  · rename_i c1 c2 r
    have hc1a : c1 ≠ '提' := fun hc => h1 (by subst hc; exact List.mem_cons_self _ _)
    have hc1b : c1 ≠ '配' := fun hc => h2 (by subst hc; exact List.mem_cons_self _ _)
    rw [if_neg]
    simp [hc1a, hc1b]
  · rfl

theorem timeOnlyMatch_false_no_digit {l : Str} (h : ∀ c ∈ l, isDigitCh c = false) :
    timeOnlyMatch l = false := by
  unfold timeOnlyMatch
  dsimp only
  rw [takeWhile_eq_nil_of_all_false fun c hc => h c (mem_of_dropWhile hc)]
  rfl

theorem matchTimeReAt_none {l : Str} (h : ∀ c ∈ l, isDigitCh c = false) :
    matchTimeReAt l = none := by
  unfold matchTimeReAt
  dsimp only
  rw [takeWhile_eq_nil_of_all_false h]
  rfl

theorem stripTT_id {l : Str} (h : ∀ c ∈ l, isDigitCh c = false) : stripTT l = l := by
  induction l with
  | nil => rfl
  | cons c cs ih =>
    unfold stripTT
    rw [timeOnlyMatch_false_no_digit h]
    simp only [Bool.false_eq_true, if_false]
    rw [ih fun d hd => h d (List.mem_cons_of_mem c hd)]

theorem emptyParenAtEnd_false {l : Str} (h : '(' ∉ l) : emptyParenAtEnd l = false := by
  unfold emptyParenAtEnd
  split
  · rename_i rest heq
    exact absurd (mem_of_dropWhile (by rw [heq]; exact List.mem_cons_self '(' _)) h
  · rfl

theorem stripEmptyParen_id {l : Str} (h : '(' ∉ l) : stripEmptyParen l = l := by
  induction l with
  | nil => rfl
  | cons c cs ih =>
    unfold stripEmptyParen
    rw [emptyParenAtEnd_false h]
    simp only [Bool.false_eq_true, if_false]
    rw [ih fun hmem => h (List.mem_cons_of_mem c hmem)]

theorem collapseWsF_id : ∀ (n : Nat) (l : Str), noDoubleWs l = true → collapseWsF n l = l := by
  intro n
  induction n with
  | zero => intro l _; rfl
  | succ n ih =>
    intro l h
    cases l with
    | nil => rfl
    | cons a t =>
      cases t with
      | nil => rfl
      | cons b r =>
        unfold noDoubleWs at h
        rw [Bool.and_eq_true] at h
        obtain ⟨h1, h2⟩ := h
        rw [Bool.not_eq_true'] at h1
        unfold collapseWsF
        rw [h1]
        simp only [Bool.false_eq_true, if_false]
        rw [ih (b :: r) h2]

theorem collapseWs_id {l : Str} (h : noDoubleWs l = true) : collapseWs l = l :=
  collapseWsF_id _ l h

theorem matchOnMSN_none {l : Str} (hm : 'm' ∉ l) (hM : 'M' ∉ l) : matchOnMSN l = none := by
  unfold matchOnMSN
  split
  · rename_i c1 c2 r2
    by_cases h1 : ((c1 = 'o' || c1 = 'O') && (c2 = 'n' || c2 = 'N')) = true
    case neg => rw [if_neg h1]
    rw [if_pos h1]
    by_cases h2 : (r2.takeWhile isSpCh).isEmpty = true
    case pos => rw [if_pos h2]
    rw [if_neg h2]
    cases hdw : r2.dropWhile isSpCh with
    | nil => rfl
    | cons a t =>
      have hal : a ∈ c1 :: c2 :: r2 := by
        refine List.mem_cons_of_mem _
          (List.mem_cons_of_mem _ (@mem_of_dropWhile isSpCh r2 a ?_))
        rw [hdw]
        exact List.mem_cons_self a t
      cases t with
      | nil => rfl
      | cons b t2 =>
        cases t2 with
        | nil => rfl
        | cons c r4 =>
          have ham : a ≠ 'm' := fun hc => hm (hc ▸ hal)
          have haM : a ≠ 'M' := fun hc => hM (hc ▸ hal)
          dsimp only
          rw [if_neg]
          simp [ham, haM]
  · rfl

theorem subOnMSNF_id : ∀ (n : Nat) (prev : Bool) (l : Str),
    (∀ l2 : Str, l2 <:+ l → matchOnMSN l2 = none) → subOnMSNF n prev l = l := by
  intro n
  induction n with
  | zero => intro prev l _; rfl
  | succ n ih =>
    intro prev l h
    cases l with
    | nil => rfl
    | cons c cs =>
      unfold subOnMSNF
      have hrec := ih (isWordCh c) cs fun l2 hsuf => h l2 (hsuf.trans (List.suffix_cons c cs))
      by_cases hp : prev = true
      · rw [if_pos hp, hrec]
      · rw [if_neg hp]
        rw [h (c :: cs) (List.suffix_refl _)]
        rw [hrec]

theorem subOnMSN_id {l : Str} (hm : 'm' ∉ l) (hM : 'M' ∉ l) : subOnMSN l = l :=
  subOnMSNF_id _ false l fun l2 hsuf =>
    matchOnMSN_none (fun hmem => hm (hsuf.subset hmem)) fun hmem => hM (hsuf.subset hmem)

theorem clean_fixed {s : Str} (hs : cleanStable s = true) : clean_source_text s = s := by
  cases s with
  | nil => rfl
  | cons c0 cs0 =>
    unfold cleanStable at hs
    rw [Bool.or_eq_true] at hs
    rcases hs with hemp | hbig
    · exact Bool.noConfusion hemp
    rw [Bool.and_eq_true, Bool.and_eq_true, Bool.and_eq_true] at hbig
    obtain ⟨⟨⟨hall, hdw⟩, hhead⟩, hlast⟩ := hbig
    have hnb : ∀ c ∈ (c0 :: cs0 : Str), cleanBadCh c = false := by
      intro c hc
      have hx := List.all_eq_true.mp hall c hc
      rwa [Bool.not_eq_true'] at hx
    have hnd : ∀ c ∈ (c0 :: cs0 : Str), isDigitCh c = false := fun c hc =>
      (not_bad_elim (hnb c hc)).1
    have hm : 'm' ∉ (c0 :: cs0 : Str) := fun hmem => (not_bad_elim (hnb _ hmem)).2.1 rfl
    have hM : 'M' ∉ (c0 :: cs0 : Str) := fun hmem => (not_bad_elim (hnb _ hmem)).2.2.1 rfl
    have hTei1 : '提' ∉ (c0 :: cs0 : Str) := fun hmem =>
      (not_bad_elim (hnb _ hmem)).2.2.2.1 rfl
    have hTei2 : '配' ∉ (c0 :: cs0 : Str) := fun hmem =>
      (not_bad_elim (hnb _ hmem)).2.2.2.2.1 rfl
    have hpar : '(' ∉ (c0 :: cs0 : Str) := fun hmem =>
      (not_bad_elim (hnb _ hmem)).2.2.2.2.2.2.2.2 rfl
    have hdots : ∀ c ∈ (c0 :: cs0 : Str), dotSwap c = c := by
      intro c hc
      obtain ⟨-, -, -, -, -, hd1, hd2, hd3, -⟩ := not_bad_elim (hnb c hc)
      unfold dotSwap
      rw [if_neg]
      simp [hd1, hd2, hd3]
    have hheadc : isSpCh c0 = false ∧ inSepStrip c0 = false := by
      simp only [List.head?_cons] at hhead
      rw [Bool.not_eq_true'] at hhead
      exact Bool.or_eq_false_iff.mp hhead
    have hlastc : ∀ c, (c0 :: cs0 : Str).getLast? = some c →
        isSpCh c = false ∧ inSepStrip c = false := by
      intro c hc
      rw [hc] at hlast
      rw [Bool.not_eq_true'] at hlast
      exact Bool.or_eq_false_iff.mp hlast
    have hstrip : pyStrip (c0 :: cs0) = c0 :: cs0 :=
      stripBy_eq_self
        (fun c hc => by
          simp only [List.head?_cons, Option.some.injEq] at hc
          subst hc
          exact hheadc.1)
        fun c hc => (hlastc c hc).1
    have hsep : stripBy inSepStrip (c0 :: cs0) = c0 :: cs0 :=
      stripBy_eq_self
        (fun c hc => by
          simp only [List.head?_cons, Option.some.injEq] at hc
          subst hc
          exact hheadc.2)
        fun c hc => (hlastc c hc).2
    have hMSN : subOnMSN (c0 :: cs0) = c0 :: cs0 := subOnMSN_id hm hM
    have hHaisin : subAll matchMSNHaisin (c0 :: cs0) = c0 :: cs0 :=
      subAll_id fun l2 hsuf => matchMSNHaisin_none fun hmem => hM (hsuf.subset hmem)
    have hTei : subAll matchTeikyou (c0 :: cs0) = c0 :: cs0 :=
      subAll_id fun l2 hsuf =>
        matchTeikyou_none (fun hmem => hTei1 (hsuf.subset hmem)) fun hmem =>
          hTei2 (hsuf.subset hmem)
    have hdot : (c0 :: cs0 : Str).map dotSwap = c0 :: cs0 := map_id_of_fixed _ hdots
    have hTT : stripTT (c0 :: cs0) = c0 :: cs0 := stripTT_id hnd
    have hTR : subAll matchTimeReAt (c0 :: cs0) = c0 :: cs0 :=
      subAll_id fun l2 hsuf => matchTimeReAt_none fun c hc => hnd c (hsuf.subset hc)
    have hEP : stripEmptyParen (c0 :: cs0) = c0 :: cs0 := stripEmptyParen_id hpar
    have hCW : collapseWs (c0 :: cs0) = c0 :: cs0 := collapseWs_id hdw
    have hTO : timeOnlyMatch (c0 :: cs0) = false := timeOnlyMatch_false_no_digit hnd
    unfold clean_source_text
    rw [show (c0 :: cs0 : Str).isEmpty = false from rfl]
    dsimp only
    rw [hstrip, hMSN, hHaisin, hTei, hdot, hTT, hstrip, hTR, hstrip, hEP, hstrip, hCW,
      hstrip, hsep, hstrip, hTO]
    simp

/-- Claim C2 (amended): `clean_source_text` is idempotent on every input
whose cleaned result is stable — free of digits, of the marker characters
`m`/`M`/`提`/`配`, of decorative dots and `(`, of doubled whitespace, and of
leading/trailing whitespace or separator characters.  It is not idempotent in
general: removing one marker occurrence can assemble a new one. -/
theorem clean_source_text_idempotent_on_stable (x : Str)
    (h : cleanStable (clean_source_text x) = true) :
    clean_source_text (clean_source_text x) = clean_source_text x :=
  clean_fixed h

/-- Counterexample to C2 as stated: on `配配信信` one pass removes the inner
`配信` leaving `配信`, and a second pass removes that too — so
`clean (clean x) = "" ≠ "配信" = clean x`. -/
theorem clean_source_text_not_idempotent :
    clean_source_text (clean_source_text ['配', '配', '信', '信']) ≠
      clean_source_text ['配', '配', '信', '信'] := by decide

/-- Witness for C2 at a concrete input: `abc 1 時間` cleans to the stable
`abc`, on which a second pass is the identity. -/
theorem clean_source_text_idempotent_on_stable_witness :
    cleanStable (clean_source_text ['a', 'b', 'c', ' ', '1', ' ', '時', '間']) = true ∧
    clean_source_text (clean_source_text ['a', 'b', 'c', ' ', '1', ' ', '時', '間']) =
      clean_source_text ['a', 'b', 'c', ' ', '1', ' ', '時', '間'] :=
  ⟨by decide, clean_source_text_idempotent_on_stable _ (by decide)⟩

/-! ## Characterization of `is_timeish` (claim C7) -/

/-- The unit alternation `(分|時間|日)` as a predicate on strings. -/
def UnitStr (u : Str) : Prop := u = ['分'] ∨ u = ['時', '間'] ∨ u = ['日']

/-- A `TIME_RE` match: digits, whitespace, unit, whitespace, and the
mandatory ago-marker `前`. -/
def IsAgoExpr (s : Str) : Prop :=
  ∃ ds w1 u w2, s = ds ++ w1 ++ u ++ w2 ++ ['前'] ∧ ds ≠ [] ∧
    (∀ c ∈ ds, isDigitCh c = true) ∧ (∀ c ∈ w1, isSpCh c = true) ∧
    UnitStr u ∧ (∀ c ∈ w2, isSpCh c = true)

/-- A `TIME_ONLY_RE` match of the whole string: leading whitespace, digits,
whitespace, unit, then either only whitespace or an optional `前` framed by
whitespace. -/
def IsTimeOnly (t : Str) : Prop :=
  ∃ w0 ds w1 u tail, t = w0 ++ ds ++ w1 ++ u ++ tail ∧
    (∀ c ∈ w0, isSpCh c = true) ∧ ds ≠ [] ∧ (∀ c ∈ ds, isDigitCh c = true) ∧
    (∀ c ∈ w1, isSpCh c = true) ∧ UnitStr u ∧
    ((∀ c ∈ tail, isSpCh c = true) ∨
      ∃ w2 w3, tail = w2 ++ '前' :: w3 ∧ (∀ c ∈ w2, isSpCh c = true) ∧
        (∀ c ∈ w3, isSpCh c = true))

theorem isDigitCh_false_of_sp {c : Char} (h : isSpCh c = true) : isDigitCh c = false := by
  simp only [isSpCh, Bool.or_eq_true, Bool.and_eq_true, decide_eq_true_eq] at h
  simp only [isDigitCh, Bool.and_eq_false_iff, decide_eq_false_iff_not]
  omega

theorem matchUnit_some {l r : Str} (h : matchUnit l = some r) :
    ∃ u, UnitStr u ∧ l = u ++ r := by
  unfold matchUnit at h
  split at h
  · exact ⟨['分'], Or.inl rfl, by simp at h; rw [h]; rfl⟩
  · exact ⟨['時', '間'], Or.inr (Or.inl rfl), by simp at h; rw [h]; rfl⟩
  · exact ⟨['日'], Or.inr (Or.inr rfl), by simp at h; rw [h]; rfl⟩
  · exact Option.noConfusion h

theorem matchUnit_complete {u : Str} (hu : UnitStr u) (r : Str) :
    matchUnit (u ++ r) = some r := by
  rcases hu with rfl | rfl | rfl <;> rfl

theorem head_wsu_not_digit {w u r : Str} (hw : ∀ c ∈ w, isSpCh c = true) (hu : UnitStr u) :
    ∀ c, (w ++ (u ++ r)).head? = some c → isDigitCh c = false := by
  intro c hc
  cases w with
  | cons a t =>
    simp only [List.cons_append, List.head?_cons, Option.some.injEq] at hc
    subst hc
    exact isDigitCh_false_of_sp (hw _ (List.mem_cons_self _ _))
  | nil =>
    rcases hu with rfl | rfl | rfl <;>
      (simp only [List.nil_append, List.cons_append, List.head?_cons,
        Option.some.injEq] at hc; subst hc; decide)

theorem head_unit_not_sp {u r : Str} (hu : UnitStr u) :
    ∀ c, (u ++ r).head? = some c → isSpCh c = false := by
  intro c hc
  rcases hu with rfl | rfl | rfl <;>
    (simp only [List.cons_append, List.head?_cons, Option.some.injEq] at hc; subst hc; decide)

theorem timeOnly_sound {t : Str} (h : timeOnlyMatch t = true) : IsTimeOnly t := by
  unfold timeOnlyMatch at h
  dsimp only at h
  by_cases hds : ((t.dropWhile isSpCh).takeWhile isDigitCh).isEmpty = true
  · rw [if_pos hds] at h
    exact Bool.noConfusion h
  rw [if_neg hds] at h
  cases hmu : matchUnit (((t.dropWhile isSpCh).dropWhile isDigitCh).dropWhile isSpCh) with
  | none =>
    rw [hmu] at h
    exact Bool.noConfusion h
  | some r =>
    rw [hmu] at h
    dsimp only at h
    obtain ⟨u, hu, hl3⟩ := matchUnit_some hmu
    refine ⟨t.takeWhile isSpCh, (t.dropWhile isSpCh).takeWhile isDigitCh,
      ((t.dropWhile isSpCh).dropWhile isDigitCh).takeWhile isSpCh, u, r,
      ?_, fun c hc => takeWhile_all t c hc,
      fun hnil => hds (by rw [hnil]; rfl),
      fun c hc => takeWhile_all _ c hc, fun c hc => takeWhile_all _ c hc, hu, ?_⟩
    · symm
      simp only [List.append_assoc]
      rw [← hl3, List.takeWhile_append_dropWhile, List.takeWhile_append_dropWhile,
        List.takeWhile_append_dropWhile]
    · split at h
      · rename_i t2 heq
        refine Or.inr ⟨r.takeWhile isSpCh, t2, ?_, fun c hc => takeWhile_all _ c hc,
          fun c hc => List.all_eq_true.mp h c hc⟩
        symm
        rw [← heq, List.takeWhile_append_dropWhile]
      · refine Or.inl fun c hc => ?_
        rw [← List.takeWhile_append_dropWhile isSpCh r] at hc
        rcases List.mem_append.mp hc with hc2 | hc2
        · exact takeWhile_all _ c hc2
        · exact List.all_eq_true.mp h c hc2

theorem timeOnly_complete {t : Str} (h : IsTimeOnly t) : timeOnlyMatch t = true := by
  obtain ⟨w0, ds, w1, u, tail, rfl, hw0, hds, hdig, hw1, hu, htail⟩ := h
  unfold timeOnlyMatch
  dsimp only
  simp only [List.append_assoc]
  have h1 : (w0 ++ (ds ++ (w1 ++ (u ++ tail)))).dropWhile isSpCh =
      ds ++ (w1 ++ (u ++ tail)) := by
    rw [dropWhile_append_of_all _ _ hw0]
    refine dropWhile_eq_self_of_head ?_
    intro c hc
    cases ds with
    | nil => exact absurd rfl hds
    | cons d ds2 =>
      simp only [List.cons_append, List.head?_cons, Option.some.injEq] at hc
      subst hc
      exact isSpCh_false_of_digit (hdig _ (List.mem_cons_self _ _))
  rw [h1]
  have h2 : (ds ++ (w1 ++ (u ++ tail))).takeWhile isDigitCh = ds := by
    rw [takeWhile_append_of_all _ _ hdig,
      takeWhile_eq_nil_of_head (head_wsu_not_digit hw1 hu), List.append_nil]
  have h3 : (ds ++ (w1 ++ (u ++ tail))).dropWhile isDigitCh = w1 ++ (u ++ tail) := by
    rw [dropWhile_append_of_all _ _ hdig]
    exact dropWhile_eq_self_of_head (head_wsu_not_digit hw1 hu)
  rw [h2, h3, isEmpty_false_of_ne_nil hds]
  simp only [Bool.false_eq_true, if_false]
  have h4 : (w1 ++ (u ++ tail)).dropWhile isSpCh = u ++ tail := by
    rw [dropWhile_append_of_all _ _ hw1]
    exact dropWhile_eq_self_of_head (head_unit_not_sp hu)
  rw [h4, matchUnit_complete hu]
  dsimp only
  rcases htail with hall | ⟨w2, w3, rfl, hw2, hw3⟩
  · rw [List.dropWhile_eq_nil_iff.mpr fun c hc => hall c hc]
    rfl
  · have h5 : (w2 ++ '前' :: w3).dropWhile isSpCh = '前' :: w3 := by
      rw [dropWhile_append_of_all _ _ hw2]
      refine dropWhile_eq_self_of_head ?_
      intro c hc
      simp only [List.head?_cons, Option.some.injEq] at hc
      subst hc
      decide
    rw [h5]
    exact List.all_eq_true.mpr hw3

theorem matchTimeReAt_some {l r : Str} (h : matchTimeReAt l = some r) :
    ∃ s, IsAgoExpr s ∧ l = s ++ r := by
  unfold matchTimeReAt at h
  dsimp only at h
  by_cases hds : (l.takeWhile isDigitCh).isEmpty = true
  · rw [if_pos hds] at h
    exact Option.noConfusion h
  rw [if_neg hds] at h
  cases hmu : matchUnit ((l.dropWhile isDigitCh).dropWhile isSpCh) with
  | none =>
    rw [hmu] at h
    exact Option.noConfusion h
  | some r1 =>
    rw [hmu] at h
    dsimp only at h
    obtain ⟨u, hu, hl3⟩ := matchUnit_some hmu
    split at h
    · rename_i t2 heq
      have ht2 : t2 = r := by simpa using h
      subst ht2
      refine ⟨l.takeWhile isDigitCh ++ (l.dropWhile isDigitCh).takeWhile isSpCh ++ u ++
        r1.takeWhile isSpCh ++ ['前'],
        ⟨_, _, _, _, rfl, fun hnil => hds (by rw [hnil]; rfl),
          fun c hc => takeWhile_all _ c hc, fun c hc => takeWhile_all _ c hc, hu,
          fun c hc => takeWhile_all _ c hc⟩, ?_⟩
      symm
      simp only [List.append_assoc, List.singleton_append]
      rw [← heq, List.takeWhile_append_dropWhile, ← hl3,
        List.takeWhile_append_dropWhile, List.takeWhile_append_dropWhile]
    · exact Option.noConfusion h

theorem matchTimeReAt_complete {s : Str} (suf : Str) (h : IsAgoExpr s) :
    (matchTimeReAt (s ++ suf)).isSome = true := by
  obtain ⟨ds, w1, u, w2, rfl, hds, hdig, hw1, hu, hw2⟩ := h
  unfold matchTimeReAt
  dsimp only
  simp only [List.append_assoc, List.singleton_append]
  have h2 : (ds ++ (w1 ++ (u ++ (w2 ++ '前' :: suf)))).takeWhile isDigitCh = ds := by
    rw [takeWhile_append_of_all _ _ hdig,
      takeWhile_eq_nil_of_head (head_wsu_not_digit hw1 hu), List.append_nil]
  have h3 : (ds ++ (w1 ++ (u ++ (w2 ++ '前' :: suf)))).dropWhile isDigitCh =
      w1 ++ (u ++ (w2 ++ '前' :: suf)) := by
    rw [dropWhile_append_of_all _ _ hdig]
    exact dropWhile_eq_self_of_head (head_wsu_not_digit hw1 hu)
  rw [h2, h3, isEmpty_false_of_ne_nil hds]
  simp only [Bool.false_eq_true, if_false]
  have h4 : (w1 ++ (u ++ (w2 ++ '前' :: suf))).dropWhile isSpCh =
      u ++ (w2 ++ '前' :: suf) := by
    rw [dropWhile_append_of_all _ _ hw1]
    exact dropWhile_eq_self_of_head (head_unit_not_sp hu)
  rw [h4, matchUnit_complete hu]
  dsimp only
  have h5 : (w2 ++ '前' :: suf).dropWhile isSpCh = '前' :: suf := by
    rw [dropWhile_append_of_all _ _ hw2]
    refine dropWhile_eq_self_of_head ?_
    intro c hc
    simp only [List.head?_cons, Option.some.injEq] at hc
    subst hc
    decide
  rw [h5]
  rfl

theorem timeReSearch_sound : ∀ {text : Str}, timeReSearch text = true →
    ∃ pre s suf, text = pre ++ s ++ suf ∧ IsAgoExpr s := by
  intro text
  induction text with
  | nil =>
    intro h
    exact Bool.noConfusion h
  | cons c cs ih =>
    intro h
    unfold timeReSearch at h
    rcases Bool.or_eq_true_iff.mp h with h1 | h1
    · cases hm : matchTimeReAt (c :: cs) with
      | none =>
        rw [hm] at h1
        exact Bool.noConfusion h1
      | some r =>
        obtain ⟨s, hs, heq⟩ := matchTimeReAt_some hm
        exact ⟨[], s, r, by simp [heq], hs⟩
    · obtain ⟨pre, s, suf, heq, hs⟩ := ih h1
      exact ⟨c :: pre, s, suf, by simp [heq], hs⟩

theorem timeReSearch_append : ∀ (pre rest : Str), (matchTimeReAt rest).isSome = true →
    timeReSearch (pre ++ rest) = true := by
  intro pre
  induction pre with
  | nil =>
    intro rest h
    cases rest with
    | nil =>
      rw [show matchTimeReAt [] = none from rfl] at h
      exact Bool.noConfusion h
    | cons c cs =>
      simp only [List.nil_append]
      unfold timeReSearch
      rw [h]
      rfl
  | cons a t ih =>
    intro rest h
    simp only [List.cons_append]
    unfold timeReSearch
    rw [ih rest h]
    simp

/-- Claim C7 (amended): `is_timeish text` is true iff either the entire
trimmed string is exactly a `<number> <unit> [ago]` pattern with the trailing
ago-marker optional, or a `<number> <unit> ago` pattern — with the ago-marker
`前` required — appears somewhere within the string; in particular
`is_timeish "4 日"` is true. -/
theorem is_timeish_characterization :
    (∀ text : Str,
      is_timeish text = true ↔
        (IsTimeOnly (pyStrip text) ∨
          ∃ pre s suf, text = pre ++ s ++ suf ∧ IsAgoExpr s)) ∧
    is_timeish ['4', ' ', '日'] = true := by
  constructor
  · intro text
    constructor
    · intro h
      unfold is_timeish at h
      by_cases h0 : text.isEmpty = true
      · rw [if_pos h0] at h
        exact Bool.noConfusion h
      rw [if_neg h0] at h
      by_cases h1 : timeOnlyMatch (pyStrip text) = true
      · exact Or.inl (timeOnly_sound h1)
      · rw [if_neg h1] at h
        exact Or.inr (timeReSearch_sound h)
    · intro h
      rcases h with h | ⟨pre, s, suf, heq, hs⟩
      · have hne : text ≠ [] := by
          intro h0
          subst h0
          obtain ⟨w0, ds, w1, u, tail, heq2, _, hds, _, _, _, _⟩ := h
          have hlen := congrArg List.length heq2
          simp only [List.length_append] at hlen
          have hds0 : ds.length = 0 := by
            simp only [pyStrip, stripBy, List.dropWhile_nil, List.reverse_nil,
              List.length_nil] at hlen
            omega
          exact hds (List.length_eq_zero.mp hds0)
        unfold is_timeish
        rw [isEmpty_false_of_ne_nil hne, timeOnly_complete h]
        rfl
      · have hne : text ≠ [] := by
          intro h0
          obtain ⟨ds, w1, u, w2, hseq, -, -, -, -, -⟩ := hs
          rw [h0] at heq
          have hlen := congrArg List.length heq.symm
          have hslen := congrArg List.length hseq
          simp only [List.length_append, List.length_nil, List.length_cons] at hlen hslen
          omega
        have htr : timeReSearch text = true := by
          rw [heq, List.append_assoc]
          exact timeReSearch_append pre (s ++ suf) (matchTimeReAt_complete suf hs)
        unfold is_timeish
        rw [isEmpty_false_of_ne_nil hne]
        simp only [Bool.false_eq_true, if_false]
        by_cases h1 : timeOnlyMatch (pyStrip text) = true
        · rw [if_pos h1]
        · rw [if_neg h1]
          exact htr
  · decide

/-- The claim's reading of the appears-anywhere disjunct: the ago-marker is
optional there too, i.e. a bare `<number> <unit>` inside the string would
already count. -/
def timeExprOptAgoAt (l : Str) : Bool :=
  if (l.takeWhile isDigitCh).isEmpty then false
  else (matchUnit ((l.dropWhile isDigitCh).dropWhile isSpCh)).isSome

def timeSearchOptAgo : Str → Bool
  | [] => false
  | c :: cs => timeExprOptAgoAt (c :: cs) || timeSearchOptAgo cs

/-- `is_timeish` as claim C7 states it: full trimmed match with optional ago,
or a pattern with a still-optional ago-marker anywhere in the string. -/
def timeishClaimed (text : Str) : Bool :=
  timeOnlyMatch (pyStrip text) || timeSearchOptAgo text

/-- Counterexample to C7 as stated: in `x 4 日` the pattern `4 日` (ago-marker
absent) appears within the string, so the claim predicts true, but
`TIME_RE` requires the trailing `前` and `is_timeish` returns false. -/
theorem is_timeish_claim_counterexample :
    is_timeish ['x', ' ', '4', ' ', '日'] = false ∧
    timeishClaimed ['x', ' ', '4', ' ', '日'] = true :=
  ⟨by decide, by decide⟩
